import Mathlib

/-!
# enki `genkey`: secure-boot key-chain generation

A shallow embedding of `cmd/genkey.go` (`NewGenkeyCmd`, the `RunE` closure).
Go strings are embedded as Lean strings (their bytes are the UTF-8 encoding of
the characters), external processes as an explicit trace of the commands
invoked, and the outcome of every effect (configuration read, directory
creation, exit status of a sub-process) as an oracle of the environment.
Logging is not part of the model.
-/

namespace Enki

/-! ## `path/filepath` on Unix

The Go standard library is not part of the repository; `filepath.Clean` and
`filepath.Join` are embedded after their Unix implementation (lexical cleaning with a
lazy buffer), whose behaviour on sample paths is checked in `Clean_samples` and
`Join_samples`. -/

/-- The Unix path separator, `filepath.Separator`. -/
def Separator : Char := '/'

/-- Go `os.IsPathSeparator` on Unix. -/
def IsPathSeparator (c : Char) : Bool := c == Separator

/-- The test `r+1 == n || os.IsPathSeparator(path[r+1])` of `filepath.Clean`,
on the part of the path that follows position `r`. -/
def atEndOrSep : List Char → Bool
  | [] => true
  | c :: _ => IsPathSeparator c

/-- The backtracking loop of the `..` case of `filepath.Clean`:
`for out.w > dotdot && !os.IsPathSeparator(out.index(out.w)) { out.w-- }`,
started at write index `w`; the result is the final write index. -/
def backtrack (buf : List Char) (dotdot : Nat) : Nat → Nat
  | 0 => 0
  | w + 1 =>
    if w + 1 > dotdot && !IsPathSeparator (buf.getD (w + 1) Separator) then
      backtrack buf dotdot w
    else w + 1

/-- The main loop `for r < n` of `filepath.Clean`.  `rest` is `path[r:]`, `out` is
the written part `buf[:w]` of the lazy buffer, `dotdot` the index where `..` must
stop.  Every iteration consumes at least one byte of `rest`; the first argument
bounds the number of iterations. -/
def cleanLoop (rooted : Bool) : Nat → List Char → List Char → Nat → List Char
  | 0, _, out, _ => out
  | _ + 1, [], out, _ => out
  | fuel + 1, c :: rest, out, dotdot =>
    if IsPathSeparator c then
      -- empty path element
      cleanLoop rooted fuel rest out dotdot
    else if c == '.' && atEndOrSep rest then
      -- . element
      cleanLoop rooted fuel rest out dotdot
    else if c == '.' && rest.head? == some '.' && atEndOrSep rest.tail then
      -- .. element: remove to last separator
      if out.length > dotdot then
        cleanLoop rooted fuel rest.tail
          (out.take (backtrack out dotdot (out.length - 1))) dotdot
      else if !rooted then
        let out1 := if out.length > 0 then out ++ [Separator] else out
        let out2 := out1 ++ ['.', '.']
        cleanLoop rooted fuel rest.tail out2 out2.length
      else
        cleanLoop rooted fuel rest.tail out dotdot
    else
      -- real path element: add slash if needed, then copy the element
      let out1 :=
        if (rooted && out.length != 1) || (!rooted && out.length != 0) then
          out ++ [Separator]
        else out
      cleanLoop rooted fuel
        ((c :: rest).dropWhile (fun b => !IsPathSeparator b))
        (out1 ++ (c :: rest).takeWhile (fun b => !IsPathSeparator b)) dotdot

/-- Go `filepath.Clean` on Unix (no volume name, `FromSlash` is the identity),
on the characters of the path. -/
def cleanChars (path : List Char) : List Char :=
  if path = [] then ['.']
  else
    let rooted := IsPathSeparator (path.headD Separator)
    let out :=
      if rooted then cleanLoop rooted path.length path.tail [Separator] 1
      else cleanLoop rooted path.length path [] 0
    -- Turn empty string into "."
    if out.length = 0 then ['.'] else out

/-- Go `filepath.Clean` (standard library, outside the repository). -/
def Clean (path : String) : String := String.mk (cleanChars path.data)

/-- Go `strings.Join`. -/
def stringsJoin : List String → String → String
  | [], _ => ""
  | [a], _ => a
  | a :: b :: rest, sep => a ++ sep ++ stringsJoin (b :: rest) sep

/-- Go `filepath.join` on Unix: the elements from the first non-empty one on are
joined with the separator and cleaned; if all are empty the result is empty. -/
def joinElems : List String → String
  | [] => ""
  | e :: rest =>
    if e ≠ "" then Clean (stringsJoin (e :: rest) "/") else joinElems rest

/-- Go `filepath.Join(dir, file)` (standard library, outside the repository), the
two-element call made by `genkey`. -/
def Join (dir file : String) : String := joinElems [dir, file]


/-! ## `crypto/sha1` and `github.com/gofrs/uuid`

Both packages are dependencies of the command and not part of the repository.  The
identifier is embedded as the specification names it, the version-5 name-based UUID under
the DNS namespace (RFC 4122: SHA-1 of the namespace bytes followed by the name); its
values on sample names are checked in `ownerIdentifier_samples`. -/

/-- `bits.RotateLeft32` on a 32-bit word held in a natural number. -/
def RotateLeft32 (x k : Nat) : Nat :=
  ((x <<< k) % 2 ^ 32) ||| (x >>> (32 - k))

/-- SHA-1 padding: the byte `0x80`, zero bytes up to 56 modulo 64, and the
message length in bits as a 64-bit big-endian integer. -/
def sha1Pad (msg : List Nat) : List Nat :=
  let len := msg.length
  let zeros := (119 - len % 64) % 64
  let bits := (len * 8) % 2 ^ 64
  msg ++ 0x80 :: List.replicate zeros 0 ++
    (List.range 8).map (fun i => (bits >>> (8 * (7 - i))) % 256)

/-- The sixteen big-endian 32-bit words of a 64-byte block. -/
def blockWords (p : List Nat) : List Nat :=
  (List.range 16).map fun i =>
    (p.getD (4 * i) 0 <<< 24) ||| (p.getD (4 * i + 1) 0 <<< 16) |||
      (p.getD (4 * i + 2) 0 <<< 8) ||| p.getD (4 * i + 3) 0

/-- The eighty-word message schedule of one block. -/
def schedule (w16 : List Nat) : List Nat :=
  (List.range 64).foldl (fun w _ =>
    let i := w.length
    w ++ [RotateLeft32 (w.getD (i - 3) 0 ^^^ w.getD (i - 8) 0 ^^^
      w.getD (i - 14) 0 ^^^ w.getD (i - 16) 0) 1]) w16

/-- The five chaining words of SHA-1. -/
structure Digest where
  h0 : Nat
  h1 : Nat
  h2 : Nat
  h3 : Nat
  h4 : Nat
deriving DecidableEq

/-- One of the eighty rounds of the SHA-1 compression function. -/
def sha1Round (w : List Nat) (s : Digest) (i : Nat) : Digest :=
  let f :=
    if i < 20 then (s.h1 &&& s.h2) ||| ((s.h1 ^^^ 0xFFFFFFFF) &&& s.h3)
    else if i < 40 then s.h1 ^^^ s.h2 ^^^ s.h3
    else if i < 60 then ((s.h1 ||| s.h2) &&& s.h3) ||| (s.h1 &&& s.h2)
    else s.h1 ^^^ s.h2 ^^^ s.h3
  let k :=
    if i < 20 then 0x5A827999 else if i < 40 then 0x6ED9EBA1
    else if i < 60 then 0x8F1BBCDC else 0xCA62C1D6
  let t := (RotateLeft32 s.h0 5 + f + s.h4 + w.getD i 0 + k) % 2 ^ 32
  ⟨t, s.h0, RotateLeft32 s.h1 30, s.h2, s.h3⟩

/-- The SHA-1 compression of one 64-byte block into the chaining value. -/
def sha1Block (dig : Digest) (p : List Nat) : Digest :=
  let w := schedule (blockWords p)
  let s := (List.range 80).foldl (sha1Round w) dig
  ⟨(dig.h0 + s.h0) % 2 ^ 32, (dig.h1 + s.h1) % 2 ^ 32, (dig.h2 + s.h2) % 2 ^ 32,
    (dig.h3 + s.h3) % 2 ^ 32, (dig.h4 + s.h4) % 2 ^ 32⟩

/-- The compression function folded over the first `n` blocks of the padded message. -/
def sha1Blocks (dig : Digest) (p : List Nat) : Nat → Digest
  | 0 => dig
  | n + 1 => sha1Blocks (sha1Block dig (p.take 64)) (p.drop 64) n

/-- The four big-endian bytes of a 32-bit word. -/
def wordBytes (x : Nat) : List Nat :=
  [(x >>> 24) % 256, (x >>> 16) % 256, (x >>> 8) % 256, x % 256]

/-- Modelled from the spec: the name-based hash of the identifier is SHA-1
(`crypto/sha1`, outside the repository); the digest (twenty bytes) of a byte string. -/
def sha1Sum (msg : List Nat) : List Nat :=
  let p := sha1Pad msg
  let d := sha1Blocks ⟨0x67452301, 0xEFCDAB89, 0x98BADCFE, 0x10325476, 0xC3D2E1F0⟩ p
    (p.length / 64)
  wordBytes d.h0 ++ wordBytes d.h1 ++ wordBytes d.h2 ++ wordBytes d.h3 ++ wordBytes d.h4

/-- The bytes of a Go string: the UTF-8 encoding of its characters. -/
def stringBytes (s : String) : List Nat :=
  s.data.flatMap fun c => (String.utf8EncodeChar c).map fun b => b.toNat

/-- The type `uuid.UUID`, an array of sixteen bytes. -/
abbrev UUID := Fin 16 → Fin 256

/-- The array of sixteen bytes that starts with the given bytes (missing ones are zero). -/
def uuidOfBytes (bs : List Nat) : UUID := fun i => Fin.ofNat (bs.getD i.val 0)

/-- Modelled from the spec: the DNS namespace, the constant `uuid.NamespaceDNS` of the
package `github.com/gofrs/uuid` (outside the repository),
`6ba7b810-9dad-11d1-80b4-00c04fd430c8`. -/
def NamespaceDNS : UUID :=
  uuidOfBytes [0x6b, 0xa7, 0xb8, 0x10, 0x9d, 0xad, 0x11, 0xd1,
    0x80, 0xb4, 0x00, 0xc0, 0x4f, 0xd4, 0x30, 0xc8]

/-- The unexported `newFromHash` of the uuid package with SHA-1: the first sixteen bytes
of the digest of the namespace bytes followed by the bytes of the name. -/
def newFromHash (ns : UUID) (name : String) : UUID :=
  uuidOfBytes (sha1Sum ((List.ofFn ns).map (fun b => b.val) ++ stringBytes name))

/-- The method `SetVersion`: `u[6] = (u[6] & 0x0f) | (v << 4)`. -/
def SetVersion (u : UUID) (v : Nat) : UUID :=
  Function.update u 6 (Fin.ofNat (((u 6).val &&& 0x0f) ||| ((v <<< 4) % 256)))

/-- The method `SetVariant` for `VariantRFC4122`: `u[8] = u[8]&(0xff>>2) | (0x02 << 6)`. -/
def SetVariantRFC4122 (u : UUID) : UUID :=
  Function.update u 8 (Fin.ofNat (((u 8).val &&& (0xff >>> 2)) ||| (0x02 <<< 6)))

/-- Modelled from the spec: the version-5 name-based UUID of `name` in namespace `ns`,
the function `uuid.NewV5` of the package `github.com/gofrs/uuid` (outside the
repository): `newFromHash` with SHA-1, then version 5 and the RFC 4122 variant. -/
def NewV5 (ns : UUID) (name : String) : UUID :=
  SetVariantRFC4122 (SetVersion (newFromHash ns name) 5)

/-- The table of `encoding/hex`. -/
def hextable : List Char := "0123456789abcdef".data

/-- The function `hex.Encode`: two lower-case hexadecimal digits per byte. -/
def hexEncode (src : List (Fin 256)) : List Char :=
  src.flatMap fun v => [hextable.getD (v.val >>> 4) '0', hextable.getD (v.val &&& 0x0f) '0']

/-- Modelled from the spec: the string form of the identifier, the method `UUID.String` of
the package `github.com/gofrs/uuid` (outside the repository): the canonical form
`xxxxxxxx-xxxx-xxxx-xxxx-xxxxxxxxxxxx` in lower-case hexadecimal. -/
def uuidString (u : UUID) : String :=
  String.mk (hexEncode [u 0, u 1, u 2, u 3] ++ '-' :: hexEncode [u 4, u 5] ++
    '-' :: hexEncode [u 6, u 7] ++ '-' :: hexEncode [u 8, u 9] ++
    '-' :: hexEncode [u 10, u 11, u 12, u 13, u 14, u 15])

/-! ## The command `genkey` -/

/-- A Go `error` value. -/
abbrev GoError := String

/-- An external command as built by `exec.Command(name, arg...)`. -/
structure Cmd where
  name : String
  args : List String
deriving DecidableEq

/-- The function `exec.Command`. -/
def Command (name : String) (args : List String) : Cmd := ⟨name, args⟩

/-- The environment of one run: the error (if any) of `config.ReadConfigBuild`, of
`os.MkdirAll` on a path, and of `CombinedOutput` for the command invoked as the `i`-th
sub-process of the run (counted from zero). -/
structure Env where
  ReadConfigBuild : Option GoError
  MkdirAll : String → Option GoError
  CombinedOutput : Nat → Cmd → Option GoError

/-- What a run of `genkey` did: the sub-processes it started, in order, and the
error it returned (`none` for `nil`). -/
structure Run where
  invoked : List Cmd
  err : Option GoError
deriving DecidableEq

/-- The method `cmd.CombinedOutput()`: the command is started (and recorded) and its
error is the one the environment gives for this invocation. -/
def CombinedOutput (env : Env) (invoked : List Cmd) (cmd : Cmd) : List Cmd × Option GoError :=
  (invoked ++ [cmd], env.CombinedOutput invoked.length cmd)

/-- The body of the loop `for _, keyType := range []string{"PK", "KEK", "DB"}` (lines 41-108).
An error in the result means the closure returns it. -/
def genkeyRole (env : Env) (name output expiration : String) (uid : UUID)
    (keyType : String) (invoked : List Cmd) : Run :=
  let key := Join output (keyType ++ ".key")
  let pem := Join output (keyType ++ ".pem")
  let der := Join output (keyType ++ ".der")
  let auth := Join output (keyType ++ ".auth")
  let esl := Join output (keyType ++ ".esl")
  let args := ["req", "-nodes", "-x509", "-subj", "/CN=" ++ name ++ "/",
    "-keyout", key,
    "-out", pem]
  let args := if expiration ≠ "" then args ++ ["-days", expiration] else args
  let cmd := Command "openssl" args
  match CombinedOutput env invoked cmd with
  | (invoked, some err) => ⟨invoked, some err⟩
  | (invoked, none) =>
    let cmd := Command "openssl" ["x509", "-outform", "DER", "-in", pem, "-out", der]
    match CombinedOutput env invoked cmd with
    | (invoked, some err) => ⟨invoked, some err⟩
    | (invoked, none) =>
      let cmd := Command "sbsiglist"
        ["--owner", uuidString uid, "--type", "x509", "--output", esl, der]
      match CombinedOutput env invoked cmd with
      | (invoked, some err) => ⟨invoked, some err⟩
      | (invoked, none) =>
        -- For PK and KEK we use PK.key and PK.pem to sign it
        -- For DB we use KEK.key and KEK.pem to sign it
        let signKey :=
          if keyType = "PK" ∨ keyType = "KEK" then Join output "PK"
          else Join output "KEK"
        let cmd := Command "sbvarsign"
          ["--attr", "NON_VOLATILE,RUNTIME_ACCESS,BOOTSERVICE_ACCESS,TIME_BASED_AUTHENTICATED_WRITE_ACCESS",
            "--key", signKey ++ ".key",
            "--cert", signKey ++ ".pem",
            "--output", auth,
            keyType,
            esl]
        match CombinedOutput env invoked cmd with
        | (invoked, some err) => ⟨invoked, some err⟩
        | (invoked, none) => ⟨invoked, none⟩

/-- The loop over the key types: the first error ends the run. -/
def genkeyRoles (env : Env) (name output expiration : String) (uid : UUID) :
    List String → List Cmd → Run
  | [], invoked => ⟨invoked, none⟩
  | keyType :: rest, invoked =>
    match genkeyRole env name output expiration uid keyType invoked with
    | ⟨invoked, some err⟩ => ⟨invoked, some err⟩
    | ⟨invoked, none⟩ => genkeyRoles env name output expiration uid rest invoked

/-- The closure `RunE` of `NewGenkeyCmd` for `args[0] = name`, the flag `output` and the
setting `expiration-in-days`. -/
def genkey (env : Env) (name output expiration : String) : Run :=
  match env.ReadConfigBuild with
  | some err => ⟨[], some err⟩
  | none =>
    let uid := NewV5 NamespaceDNS name
    match env.MkdirAll output with
    | some err => ⟨[], some err⟩
    | none =>
      match genkeyRoles env name output expiration uid ["PK", "KEK", "DB"] [] with
      | ⟨invoked, some err⟩ => ⟨invoked, some err⟩
      | ⟨invoked, none⟩ =>
        -- Generate the policy encryption key
        let tpmPrivate := Join output "tpm2-pcr-private.pem"
        let cmd := Command "openssl" ["genrsa", "-out", tpmPrivate, "2048"]
        match CombinedOutput env invoked cmd with
        | (invoked, some err) => ⟨invoked, some err⟩
        | (invoked, none) => ⟨invoked, none⟩

/-- The default of the flag `--output`. -/
def defaultOutput : String := "keys/"

/-- The default of the flag `--expiration-in-days`. -/
def defaultExpiration : String := "365"

/-- An environment in which nothing fails. -/
def okEnv : Env := ⟨none, fun _ => none, fun _ _ => none⟩


/-! ## The specification's view of a run -/

/-- The role whose key and certificate sign the signature list of a role, as the
specification fixes it: PK signs PK and KEK, KEK signs DB. -/
def signingParent (role : String) : String :=
  if role = "DB" then "KEK" else "PK"

/-- The four commands of one role as the specification describes them: certificate
generation, DER conversion, signature-list construction, authenticated-variable signing. -/
def expectedRole (name output expiration owner role : String) : List Cmd :=
  [Command "openssl"
      (["req", "-nodes", "-x509", "-subj", "/CN=" ++ name ++ "/",
        "-keyout", Join output (role ++ ".key"), "-out", Join output (role ++ ".pem")] ++
        (if expiration = "" then [] else ["-days", expiration])),
    Command "openssl"
      ["x509", "-outform", "DER", "-in", Join output (role ++ ".pem"),
        "-out", Join output (role ++ ".der")],
    Command "sbsiglist"
      ["--owner", owner, "--type", "x509", "--output", Join output (role ++ ".esl"),
        Join output (role ++ ".der")],
    Command "sbvarsign"
      ["--attr", "NON_VOLATILE,RUNTIME_ACCESS,BOOTSERVICE_ACCESS,TIME_BASED_AUTHENTICATED_WRITE_ACCESS",
        "--key", Join output (signingParent role ++ ".key"),
        "--cert", Join output (signingParent role ++ ".pem"),
        "--output", Join output (role ++ ".auth"), role, Join output (role ++ ".esl")]]

/-- The thirteen commands of a successful run as the specification describes them: the
four steps for PK, for KEK and for DB, then the policy-encryption key. -/
def expectedCommands (name output expiration : String) : List Cmd :=
  expectedRole name output expiration (uuidString (NewV5 NamespaceDNS name)) "PK" ++
    expectedRole name output expiration (uuidString (NewV5 NamespaceDNS name)) "KEK" ++
    expectedRole name output expiration (uuidString (NewV5 NamespaceDNS name)) "DB" ++
    [Command "openssl" ["genrsa", "-out", Join output "tpm2-pcr-private.pem", "2048"]]

/-- A list of commands run one after the other until the first failure. -/
def runAll (env : Env) : List Cmd → List Cmd → Run
  | [], invoked => ⟨invoked, none⟩
  | c :: cs, invoked =>
    match env.CombinedOutput invoked.length c with
    | some err => ⟨invoked ++ [c], some err⟩
    | none => runAll env cs (invoked ++ [c])

/-! ## Reading a command line -/

/-- The options, among those `genkey` passes to `openssl`, `sbsiglist` and `sbvarsign`,
that are followed by a value. -/
def valueFlags : List String :=
  ["-subj", "-keyout", "-out", "-days", "-outform", "-in",
    "--owner", "--type", "--output", "--attr", "--key", "--cert"]

/-- An argument list read from the left: the (option, value) pairs and the remaining
words (sub-command, switches, operands) in order.  The first argument is the option
that still waits for its value. -/
def parseArgs : Option String → List String → List (String × String) × List String
  | _, [] => ([], [])
  | some f, v :: rest => ((f, v) :: (parseArgs none rest).1, (parseArgs none rest).2)
  | none, a :: rest =>
    if a ∈ valueFlags then parseArgs (some a) rest
    else ((parseArgs none rest).1, a :: (parseArgs none rest).2)

/-- The value given to an option on a command line, if the option is there. -/
def flagValue (flag : String) (args : List String) : Option String :=
  (parseArgs none args).1.lookup flag

/-- The values given to any of the listed options, in order. -/
def flagValues (flags : List String) (args : List String) : List String :=
  ((parseArgs none args).1.filter fun p => p.1 ∈ flags).map Prod.snd

/-- The words of a command line that are neither a valued option nor its value. -/
def operands (args : List String) : List String := (parseArgs none args).2

/-- The file paths a command is told to write: the values of `-keyout`, `-out`
(`openssl`) and `--output` (`sbsiglist`, `sbvarsign`). -/
def writes (c : Cmd) : List String := flagValues ["-keyout", "-out", "--output"] c.args

/-- The file paths a command is told to read: the values of `-in` (`openssl x509`),
`--key` and `--cert` (`sbvarsign`), the operand of `sbsiglist` (the certificate) and the
operand of `sbvarsign` after the variable name (the signature list). -/
def reads (c : Cmd) : List String :=
  flagValues ["-in", "--key", "--cert"] c.args ++
    (if c.name = "sbsiglist" then operands c.args
      else if c.name = "sbvarsign" then (operands c.args).tail
      else [])

/-- The sixteen files of a successful run in directory `D`, as the specification names
them. -/
def expectedFiles (D : String) : List String :=
  (["PK", "KEK", "DB"].flatMap fun role =>
    [".key", ".pem", ".der", ".esl", ".auth"].map fun ext => Join D (role ++ ext)) ++
    [Join D "tpm2-pcr-private.pem"]

/-- The name of the derived identifier as `genkey` passes it on: `uid.String()` for
`uid := uuid.NewV5(uuid.NamespaceDNS, name)`. -/
def ownerIdentifier (name : String) : String := uuidString (NewV5 NamespaceDNS name)

/-! ## Auxiliary notions of the proofs -/

/-- A file name that `filepath.Clean` copies unchanged: not empty, not starting with a
dot, without separator. -/
def plainElem (e : List Char) : Prop :=
  e ≠ [] ∧ e.head? ≠ some '.' ∧ ∀ c ∈ e, IsPathSeparator c = false

/-- The separator that the real-element case of `filepath.Clean` writes first. -/
def withSep (rooted : Bool) (out : List Char) : List Char :=
  if (rooted && out.length != 1) || (!rooted && out.length != 0) then out ++ [Separator]
  else out

/-- The bits of a digest that a version-5 UUID keeps: the sixteen bytes without the high
nibble of byte 6 (the version) and the two high bits of byte 8 (the variant). -/
def keptBits (u : UUID) : UUID :=
  fun i => if i = 6 then Fin.ofNat ((u 6).val &&& 0x0f)
    else if i = 8 then Fin.ofNat ((u 8).val &&& 0x3f) else u i

/-- The name of 129 letters `a` and `b` spelt by a sequence of bits. -/
def nameOfBits (v : Fin 129 → Bool) : String :=
  String.mk (List.ofFn fun i => if v i then 'a' else 'b')

/-! ## Evaluation on sample inputs -/

theorem Clean_samples :
    Clean "keys/" = "keys" ∧ Clean "a/b/../c" = "a/c" ∧ Clean "../../a" = "../../a" ∧
      Clean "/../a" = "/a" ∧ Clean "a//b/./c/.." = "a/b" ∧ Clean "" = "." ∧
      Clean "abc/def/../../.." = ".." ∧ Clean "/" = "/" ∧ Clean "./" = "." ∧
      Clean "abc/../../././../def" = "../../def" ∧ Clean "/abc/def/../../.." = "/" := by
  decide

theorem Join_samples :
    Join "keys/" "PK.key" = "keys/PK.key" ∧ Join "" "PK.key" = "PK.key" ∧ Join "" "" = "" ∧
      Join "/" "PK" = "/PK" ∧ Join "a/.." "PK" = "PK" ∧
      Join "" "PK" ++ ".key" = "PK.key" ∧ Join "./keys//x/.." "KEK" ++ ".pem" = "keys/KEK.pem" := by
  decide

set_option maxRecDepth 100000 in
theorem ownerIdentifier_samples :
    ownerIdentifier "acme-corp" = "a6500631-1930-5afa-9d38-24de9bedcb37" ∧
      ownerIdentifier "python.org" = "886313e1-3b8a-5372-9b90-0c9aee199e5d" ∧
      ownerIdentifier "www.example.com" = "2ed6657d-e927-568b-95e1-2665a8aea6a2" := by
  decide

/-! ## Lemmas on paths -/

theorem takeWhile_append_sep (x y : List Char) :
    (x ++ Separator :: y).takeWhile (fun b => !IsPathSeparator b) =
      x.takeWhile (fun b => !IsPathSeparator b) := by
  induction x with
  | nil => simp [List.takeWhile, IsPathSeparator]
  | cons a t ih =>
    by_cases h : IsPathSeparator a = true
    · simp [List.takeWhile, h]
    · simp [List.takeWhile, h, ih]

theorem dropWhile_append_sep (x y : List Char) :
    (x ++ Separator :: y).dropWhile (fun b => !IsPathSeparator b) =
      x.dropWhile (fun b => !IsPathSeparator b) ++ Separator :: y := by
  induction x with
  | nil => simp [List.dropWhile, IsPathSeparator]
  | cons a t ih =>
    by_cases h : IsPathSeparator a = true
    · simp [List.dropWhile, h]
    · simp [List.dropWhile, h, ih]

theorem takeWhile_plain (e : List Char) (h : ∀ c ∈ e, IsPathSeparator c = false) :
    e.takeWhile (fun b => !IsPathSeparator b) = e := by
  induction e with
  | nil => rfl
  | cons a t ih =>
    have ha : IsPathSeparator a = false := h a (by simp)
    simp only [List.takeWhile, ha, Bool.not_false]
    rw [ih (fun c hc => h c (by simp [hc]))]

theorem dropWhile_plain (e : List Char) (h : ∀ c ∈ e, IsPathSeparator c = false) :
    e.dropWhile (fun b => !IsPathSeparator b) = [] := by
  induction e with
  | nil => rfl
  | cons a t ih =>
    have ha : IsPathSeparator a = false := h a (by simp)
    simp only [List.dropWhile, ha, Bool.not_false]
    exact ih (fun c hc => h c (by simp [hc]))

theorem cleanLoop_nil (rooted : Bool) (fuel : Nat) (out : List Char) (dd : Nat) :
    cleanLoop rooted fuel [] out dd = out := by
  cases fuel <;> rfl

theorem cleanLoop_plain (rooted : Bool) (e : List Char) (he : plainElem e) (fuel : Nat)
    (hf : e.length ≤ fuel) (out : List Char) (dd : Nat) :
    cleanLoop rooted fuel e out dd = withSep rooted out ++ e := by
  obtain ⟨hne, hdot, hsep⟩ := he
  cases e with
  | nil => exact absurd rfl hne
  | cons a t =>
    cases fuel with
    | zero => simp at hf
    | succ f =>
      have ha : IsPathSeparator a = false := hsep a (by simp)
      have hd : (a == '.') = false := by
        simp only [List.head?_cons, ne_eq, Option.some.injEq] at hdot
        simpa using hdot
      rw [cleanLoop]
      simp only [ha, hd, Bool.false_and, Bool.false_eq_true, if_false]
      rw [takeWhile_plain _ hsep, dropWhile_plain _ hsep, cleanLoop_nil]
      rfl

theorem atEndOrSep_append_sep (x e : List Char) :
    atEndOrSep (x ++ Separator :: e) = atEndOrSep x := by
  cases x <;> simp [atEndOrSep, IsPathSeparator]

theorem dotdot_append_sep (c : Char) (x e : List Char) :
    (c == '.' && (x ++ Separator :: e).head? == some '.' &&
        atEndOrSep (x ++ Separator :: e).tail) =
      (c == '.' && x.head? == some '.' && atEndOrSep x.tail) := by
  cases x with
  | nil =>
    have h : (Separator == '.') = false := by decide
    simp [h]
  | cons d t => simp [atEndOrSep_append_sep]

theorem length_dropWhile_le (p : Char → Bool) (x : List Char) :
    (x.dropWhile p).length ≤ x.length := by
  induction x with
  | nil => simp
  | cons a t ih =>
    simp only [List.dropWhile]
    split
    · exact Nat.le_succ_of_le ih
    · exact Nat.le_refl _

/-- The bound on the iterations of the loop of `filepath.Clean` is never reached: any
bound that is at least the length of the rest of the path gives the same result, so
`cleanChars`, which starts the loop with the length of the path, runs it to the end. -/
theorem cleanLoop_fuel (rooted : Bool) :
    ∀ (f g : Nat) (rest out : List Char) (dd : Nat), rest.length ≤ f → rest.length ≤ g →
      cleanLoop rooted f rest out dd = cleanLoop rooted g rest out dd := by
  intro f
  induction f with
  | zero =>
    intro g rest out dd hf _
    have h0 : rest = [] := List.length_eq_zero.mp (Nat.le_zero.mp hf)
    subst h0
    rw [cleanLoop_nil, cleanLoop_nil]
  | succ f ih =>
    intro g rest out dd hf hg
    cases rest with
    | nil => rw [cleanLoop_nil, cleanLoop_nil]
    | cons c t =>
      cases g with
      | zero => simp at hg
      | succ g =>
        have ht : t.length ≤ f := by simpa using hf
        have ht2 : t.length ≤ g := by simpa using hg
        have htl : t.tail.length ≤ t.length := by simp
        have hd : ((c :: t).dropWhile (fun b => !IsPathSeparator b)).length ≤ t.length ∨
            IsPathSeparator c = true := by
          by_cases hc : IsPathSeparator c = true
          · exact Or.inr hc
          · left
            have hcf : IsPathSeparator c = false := by simpa using hc
            simp only [List.dropWhile, hcf, Bool.not_false]
            exact length_dropWhile_le _ t
        rw [cleanLoop, cleanLoop]
        split
        · exact ih g t out dd ht ht2
        · rename_i hc
          have hd2 := hd.resolve_right hc
          split
          · exact ih g t out dd ht ht2
          · split
            · split
              · exact ih g _ _ _ (by omega) (by omega)
              · split
                · exact ih g _ _ _ (by omega) (by omega)
                · exact ih g _ _ _ (by omega) (by omega)
            · exact ih g _ _ _ (by omega) (by omega)


/-- The loop of `filepath.Clean` on a path that ends in a separator and a plain file
name writes a buffer that ends with this file name, and what precedes the name does
not depend on it. -/
theorem cleanLoop_last (rooted : Bool) :
    ∀ (n : Nat) (x : List Char), x.length ≤ n → ∀ (out : List Char) (dd : Nat),
      ∃ base : List Char, ∀ e : List Char, plainElem e →
        ∀ fuel : Nat, x.length + 1 + e.length ≤ fuel →
          cleanLoop rooted fuel (x ++ Separator :: e) out dd = base ++ e := by
  have hnil : ∀ (out : List Char) (dd : Nat),
      ∃ base : List Char, ∀ e : List Char, plainElem e →
        ∀ fuel : Nat, ([] : List Char).length + 1 + e.length ≤ fuel →
          cleanLoop rooted fuel ([] ++ Separator :: e) out dd = base ++ e := by
    intro out dd
    refine ⟨withSep rooted out, fun e he fuel hf => ?_⟩
    cases fuel with
    | zero => simp at hf
    | succ f =>
      have hs : IsPathSeparator Separator = true := by decide
      rw [List.nil_append, cleanLoop]
      simp only [hs, if_true]
      exact cleanLoop_plain rooted e he f (by simp at hf; omega) out dd
  intro n
  induction n with
  | zero =>
    intro x hx out dd
    have hx0 : x = [] := List.length_eq_zero.mp (Nat.le_zero.mp hx)
    subst hx0
    exact hnil out dd
  | succ n ih =>
    intro x hx out dd
    cases x with
    | nil => exact hnil out dd
    | cons c t =>
      have ht : t.length ≤ n := by simpa using hx
      by_cases hc : IsPathSeparator c = true
      · obtain ⟨base, hb⟩ := ih t ht out dd
        refine ⟨base, fun e he fuel hf => ?_⟩
        cases fuel with
        | zero => simp at hf
        | succ f =>
          rw [List.cons_append, cleanLoop]
          simp only [hc, if_true]
          exact hb e he f (by simp at hf; omega)
      · by_cases h2 : (c == '.' && atEndOrSep t) = true
        · obtain ⟨base, hb⟩ := ih t ht out dd
          refine ⟨base, fun e he fuel hf => ?_⟩
          cases fuel with
          | zero => simp at hf
          | succ f =>
            rw [List.cons_append, cleanLoop]
            simp only [hc, atEndOrSep_append_sep, h2, if_true, if_false, Bool.false_eq_true]
            exact hb e he f (by simp at hf; omega)
        · by_cases h3 : (c == '.' && t.head? == some '.' && atEndOrSep t.tail) = true
          · cases t with
            | nil => simp at h3
            | cons d u =>
              have hu : u.length ≤ n := by simp at ht; omega
              have key : ∀ (out2 : List Char) (dd2 : Nat),
                  ∃ base : List Char, ∀ e : List Char, plainElem e →
                    ∀ fuel : Nat, u.length + 1 + e.length ≤ fuel →
                      cleanLoop rooted fuel (u ++ Separator :: e) out2 dd2 = base ++ e :=
                fun out2 dd2 => ih u hu out2 dd2
              have step : ∀ (e : List Char) (f : Nat),
                  cleanLoop rooted (f + 1) (c :: (d :: u ++ Separator :: e)) out dd =
                    if out.length > dd then
                      cleanLoop rooted f (u ++ Separator :: e)
                        (out.take (backtrack out dd (out.length - 1))) dd
                    else if (!rooted) = true then
                      cleanLoop rooted f (u ++ Separator :: e)
                        ((if out.length > 0 then out ++ [Separator] else out) ++ ['.', '.'])
                        ((if out.length > 0 then out ++ [Separator] else out) ++ ['.', '.']).length
                    else cleanLoop rooted f (u ++ Separator :: e) out dd := by
                intro e f
                have h2' := h2
                have h3' := h3
                rw [cleanLoop]
                rw [atEndOrSep_append_sep, dotdot_append_sep]
                simp only [List.tail_cons] at h3'
                simp only [hc, h2', if_false, Bool.false_eq_true,
                  List.cons_append, List.tail_cons]
                rw [if_pos h3']
              by_cases g1 : out.length > dd
              · obtain ⟨base, hb⟩ := key (out.take (backtrack out dd (out.length - 1))) dd
                refine ⟨base, fun e he fuel hf => ?_⟩
                cases fuel with
                | zero => simp at hf
                | succ f =>
                  rw [List.cons_append, step, if_pos g1]
                  exact hb e he f (by simp at hf; omega)
              · by_cases g2 : (!rooted) = true
                · obtain ⟨base, hb⟩ := key
                    ((if out.length > 0 then out ++ [Separator] else out) ++ ['.', '.'])
                    ((if out.length > 0 then out ++ [Separator] else out) ++ ['.', '.']).length
                  refine ⟨base, fun e he fuel hf => ?_⟩
                  cases fuel with
                  | zero => simp at hf
                  | succ f =>
                    rw [List.cons_append, step, if_neg g1, if_pos g2]
                    exact hb e he f (by simp at hf; omega)
                · obtain ⟨base, hb⟩ := key out dd
                  refine ⟨base, fun e he fuel hf => ?_⟩
                  cases fuel with
                  | zero => simp at hf
                  | succ f =>
                    rw [List.cons_append, step, if_neg g1, if_neg g2]
                    exact hb e he f (by simp at hf; omega)
          · have hd : ((c :: t).dropWhile (fun b => !IsPathSeparator b)).length ≤ t.length := by
              have hcf : IsPathSeparator c = false := by simpa using hc
              simp only [List.dropWhile, hcf, Bool.not_false]
              exact length_dropWhile_le _ t
            obtain ⟨base, hb⟩ := ih _ (Nat.le_trans hd ht)
              (withSep rooted out ++ (c :: t).takeWhile (fun b => !IsPathSeparator b)) dd
            refine ⟨base, fun e he fuel hf => ?_⟩
            cases fuel with
            | zero => simp at hf
            | succ f =>
              rw [List.cons_append, cleanLoop]
              rw [show c :: (t ++ Separator :: e) = (c :: t) ++ Separator :: e from rfl,
                atEndOrSep_append_sep, dotdot_append_sep,
                takeWhile_append_sep, dropWhile_append_sep]
              simp only [hc, h2, h3, if_false, Bool.false_eq_true]
              exact hb e he f (by simp at hf ht ⊢; omega)

theorem plainElem_head (e : List Char) (he : plainElem e) :
    IsPathSeparator (e.headD Separator) = false := by
  obtain ⟨hne, _, hsep⟩ := he
  cases e with
  | nil => exact absurd rfl hne
  | cons a t => exact hsep a (by simp)

theorem cleanChars_plain (e : List Char) (he : plainElem e) : cleanChars e = e := by
  have hne : e ≠ [] := he.1
  have hlen : e.length ≠ 0 := fun h => hne (List.length_eq_zero.mp h)
  unfold cleanChars
  simp only [hne, if_false, plainElem_head e he, Bool.false_eq_true]
  rw [cleanLoop_plain false e he e.length (Nat.le_refl _)]
  simp [withSep, hlen]

theorem cleanChars_last (x : List Char) :
    ∃ base : List Char, ∀ e : List Char, plainElem e →
      cleanChars (x ++ Separator :: e) = base ++ e := by
  have hs : IsPathSeparator Separator = true := by decide
  cases x with
  | nil =>
    refine ⟨[Separator], fun e he => ?_⟩
    have hlen : e.length ≠ 0 := fun h => he.1 (List.length_eq_zero.mp h)
    unfold cleanChars
    simp only [List.nil_append, List.headD_cons, List.tail_cons, hs, if_true,
      List.length_cons, reduceCtorEq, if_false]
    rw [cleanLoop_plain true e he (e.length + 1) (Nat.le_succ _)]
    simp [withSep, hlen]
  | cons d t =>
    by_cases hd : IsPathSeparator d = true
    · obtain ⟨base, hb⟩ := cleanLoop_last true t.length t (Nat.le_refl _) [Separator] 1
      refine ⟨base, fun e he => ?_⟩
      have hlen : e.length ≠ 0 := fun h => he.1 (List.length_eq_zero.mp h)
      unfold cleanChars
      simp only [List.cons_append, List.headD_cons, List.tail_cons, hd, if_true,
        reduceCtorEq, if_false]
      rw [hb e he _ (by simp; omega)]
      simp [hlen]
    · obtain ⟨base, hb⟩ := cleanLoop_last false (d :: t).length (d :: t) (Nat.le_refl _) [] 0
      refine ⟨base, fun e he => ?_⟩
      have hlen : e.length ≠ 0 := fun h => he.1 (List.length_eq_zero.mp h)
      unfold cleanChars
      simp only [List.cons_append, List.headD_cons, hd, if_false, reduceCtorEq,
        Bool.false_eq_true]
      rw [← List.cons_append, hb e he _ (by simp; omega)]
      simp [hlen]

/-- Joining a directory and a plain file name puts the file name, unchanged, at the end
of the result; what precedes it depends on the directory only. -/
theorem Join_plain (D : String) :
    ∃ base : String, ∀ e : String, plainElem e.data → Join D e = base ++ e := by
  by_cases hD : D = ""
  · subst hD
    refine ⟨"", fun e he => ?_⟩
    have hne : e ≠ "" := by
      intro h
      apply he.1
      rw [h]
    simp only [Join, joinElems, stringsJoin, ne_eq, not_true_eq_false, if_false, hne,
      not_false_eq_true, if_true, Clean]
    rw [cleanChars_plain e.data he]
    simp
  · obtain ⟨base, hb⟩ := cleanChars_last D.data
    refine ⟨String.mk base, fun e he => ?_⟩
    simp only [Join, joinElems, stringsJoin, ne_eq, hD, not_false_eq_true, if_true, Clean]
    apply String.ext
    have hsl : ("/" : String).data = [Separator] := rfl
    simp only [String.data_append, List.append_assoc, hsl, List.singleton_append]
    exact hb e.data he

theorem Join_append (D a t : String) (ha : plainElem a.data)
    (ht : ∀ c ∈ t.data, IsPathSeparator c = false) : Join D a ++ t = Join D (a ++ t) := by
  obtain ⟨base, hb⟩ := Join_plain D
  have hat : plainElem (a ++ t).data := by
    obtain ⟨h1, h2, h3⟩ := ha
    refine ⟨?_, ?_, ?_⟩
    · simp [String.data_append, h1]
    · cases hd : a.data with
      | nil => exact absurd hd h1
      | cons x xs =>
        rw [hd] at h2
        simpa [String.data_append, hd] using h2
    · intro c hc
      simp only [String.data_append, List.mem_append] at hc
      rcases hc with hc | hc
      · exact h3 c hc
      · exact ht c hc
  rw [hb a ha, hb (a ++ t) hat, String.append_assoc]

theorem plain_PK : plainElem ("PK" : String).data := by
  simp [plainElem, IsPathSeparator, Separator]

theorem plain_KEK : plainElem ("KEK" : String).data := by
  simp [plainElem, IsPathSeparator, Separator]

theorem signKey_PK (D : String) :
    Join D "PK" ++ ".key" = Join D "PK.key" ∧ Join D "PK" ++ ".pem" = Join D "PK.pem" :=
  ⟨Join_append D "PK" ".key" plain_PK (by simp [IsPathSeparator, Separator]),
    Join_append D "PK" ".pem" plain_PK (by simp [IsPathSeparator, Separator])⟩

theorem signKey_KEK (D : String) :
    Join D "KEK" ++ ".key" = Join D "KEK.key" ∧ Join D "KEK" ++ ".pem" = Join D "KEK.pem" :=
  ⟨Join_append D "KEK" ".key" plain_KEK (by simp [IsPathSeparator, Separator]),
    Join_append D "KEK" ".pem" plain_KEK (by simp [IsPathSeparator, Separator])⟩

/-! ## The run as a sequence of commands -/

theorem runAll_append (env : Env) (a b : List Cmd) (inv : List Cmd) :
    runAll env (a ++ b) inv =
      match runAll env a inv with
      | ⟨inv2, some err⟩ => ⟨inv2, some err⟩
      | ⟨inv2, none⟩ => runAll env b inv2 := by
  induction a generalizing inv with
  | nil => simp [runAll]
  | cons c cs ih =>
    simp only [List.cons_append, runAll]
    cases h : env.CombinedOutput inv.length c with
    | some err => simp
    | none => simpa using ih (inv ++ [c])

theorem genkeyRole_eq (env : Env) (name output expiration : String) (uid : UUID)
    (keyType : String) (inv : List Cmd)
    (hk : keyType = "PK" ∨ keyType = "KEK" ∨ keyType = "DB") :
    genkeyRole env name output expiration uid keyType inv =
      runAll env (expectedRole name output expiration (uuidString uid) keyType) inv := by
  have hkey : (if keyType = "PK" ∨ keyType = "KEK" then Join output "PK" else Join output "KEK")
        ++ ".key" = Join output (signingParent keyType ++ ".key") := by
    rcases hk with h | h | h <;> subst h
    · exact (signKey_PK output).1
    · exact (signKey_PK output).1
    · exact (signKey_KEK output).1
  have hpem : (if keyType = "PK" ∨ keyType = "KEK" then Join output "PK" else Join output "KEK")
        ++ ".pem" = Join output (signingParent keyType ++ ".pem") := by
    rcases hk with h | h | h <;> subst h
    · exact (signKey_PK output).2
    · exact (signKey_PK output).2
    · exact (signKey_KEK output).2
  have hargs : (if expiration ≠ "" then
        ["req", "-nodes", "-x509", "-subj", "/CN=" ++ name ++ "/",
          "-keyout", Join output (keyType ++ ".key"), "-out", Join output (keyType ++ ".pem")]
          ++ ["-days", expiration]
      else ["req", "-nodes", "-x509", "-subj", "/CN=" ++ name ++ "/",
          "-keyout", Join output (keyType ++ ".key"), "-out", Join output (keyType ++ ".pem")]) =
      ["req", "-nodes", "-x509", "-subj", "/CN=" ++ name ++ "/",
          "-keyout", Join output (keyType ++ ".key"), "-out", Join output (keyType ++ ".pem")]
        ++ (if expiration = "" then [] else ["-days", expiration]) := by
    by_cases he : expiration = "" <;> simp [he]
  unfold genkeyRole expectedRole
  simp only [hargs, hkey, hpem, CombinedOutput, runAll, List.length_append,
    List.length_singleton]
  cases h1 : env.CombinedOutput inv.length _ with
  | some err => rfl
  | none =>
    simp only [List.length_append, List.length_singleton]
    cases h2 : env.CombinedOutput (inv.length + 1) _ with
    | some err => rfl
    | none =>
      simp only [List.length_append, List.length_singleton]
      cases h3 : env.CombinedOutput (inv.length + 1 + 1) _ with
      | some err => rfl
      | none =>
        simp only [List.length_append, List.length_singleton]
        cases h4 : env.CombinedOutput (inv.length + 1 + 1 + 1) _ with
        | some err => rfl
        | none => rfl

/-- The runs of `genkey` that get past the configuration and the output directory are
the thirteen expected commands, run until the first failure. -/
theorem genkey_eq_runAll (env : Env) (name output expiration : String)
    (hcfg : env.ReadConfigBuild = none) (hmk : env.MkdirAll output = none) :
    genkey env name output expiration =
      runAll env (expectedCommands name output expiration) [] := by
  unfold genkey expectedCommands
  simp only [hcfg, hmk, genkeyRoles]
  rw [genkeyRole_eq env name output expiration _ "PK" [] (by simp)]
  rw [List.append_assoc, List.append_assoc, runAll_append]
  cases h1 : runAll env (expectedRole name output expiration
      (uuidString (NewV5 NamespaceDNS name)) "PK") [] with
  | mk inv1 e1 =>
    cases e1 with
    | some err => rfl
    | none =>
      simp only []
      rw [genkeyRole_eq env name output expiration _ "KEK" inv1 (by simp)]
      rw [runAll_append]
      cases h2 : runAll env (expectedRole name output expiration
          (uuidString (NewV5 NamespaceDNS name)) "KEK") inv1 with
      | mk inv2 e2 =>
        cases e2 with
        | some err => rfl
        | none =>
          simp only []
          rw [genkeyRole_eq env name output expiration _ "DB" inv2 (by simp)]
          rw [runAll_append]
          cases h3 : runAll env (expectedRole name output expiration
              (uuidString (NewV5 NamespaceDNS name)) "DB") inv2 with
          | mk inv3 e3 =>
            cases e3 with
            | some err => rfl
            | none =>
              simp only [CombinedOutput, runAll]
              cases h4 : env.CombinedOutput inv3.length _ with
              | some err => rfl
              | none => rfl

theorem genkey_no_config (env : Env) (name output expiration : String) (err : GoError)
    (hcfg : env.ReadConfigBuild = some err) :
    genkey env name output expiration = ⟨[], some err⟩ := by
  simp [genkey, hcfg]

theorem genkey_no_dir (env : Env) (name output expiration : String) (err : GoError)
    (hcfg : env.ReadConfigBuild = none) (hmk : env.MkdirAll output = some err) :
    genkey env name output expiration = ⟨[], some err⟩ := by
  simp [genkey, hcfg, hmk]

theorem runAll_ok (env : Env) (cs inv : List Cmd)
    (h : ∀ i c, cs.get? i = some c → env.CombinedOutput (inv.length + i) c = none) :
    runAll env cs inv = ⟨inv ++ cs, none⟩ := by
  induction cs generalizing inv with
  | nil => simp [runAll]
  | cons c cs ih =>
    have h0 : env.CombinedOutput inv.length c = none := by simpa using h 0 c rfl
    simp only [runAll, h0]
    rw [ih (inv ++ [c])]
    · simp
    · intro i d hd
      have := h (i + 1) d (by simpa using hd)
      simpa [Nat.add_assoc, Nat.add_comm 1 i] using this

theorem runAll_fail (env : Env) (cs inv : List Cmd) (k : Nat) (err : GoError)
    (hk : k < cs.length)
    (hok : ∀ i c, i < k → cs.get? i = some c → env.CombinedOutput (inv.length + i) c = none)
    (hfail : ∀ c, cs.get? k = some c → env.CombinedOutput (inv.length + k) c = some err) :
    runAll env cs inv = ⟨inv ++ cs.take (k + 1), some err⟩ := by
  induction cs generalizing inv k with
  | nil => simp at hk
  | cons c cs ih =>
    cases k with
    | zero =>
      have h0 : env.CombinedOutput inv.length c = some err := by simpa using hfail c rfl
      simp [runAll, h0]
    | succ k =>
      have h0 : env.CombinedOutput inv.length c = none := by
        simpa using hok 0 c (Nat.succ_pos k) rfl
      simp only [runAll, h0]
      rw [ih (inv ++ [c]) k (by simpa using hk)]
      · simp
      · intro i d hi hd
        have := hok (i + 1) d (by omega) (by simpa using hd)
        simpa [Nat.add_assoc, Nat.add_comm 1 i] using this
      · intro d hd
        have := hfail d (by simpa using hd)
        simpa [Nat.add_assoc, Nat.add_comm 1 k] using this

theorem runAll_take (env : Env) (cs inv : List Cmd) :
    ∃ k, (runAll env cs inv).invoked = inv ++ cs.take k := by
  induction cs generalizing inv with
  | nil => exact ⟨0, by simp [runAll]⟩
  | cons c cs ih =>
    simp only [runAll]
    cases h : env.CombinedOutput inv.length c with
    | some err => exact ⟨1, by simp⟩
    | none =>
      obtain ⟨k, hk⟩ := ih (inv ++ [c])
      exact ⟨k + 1, by simp [hk]⟩

/-- Every run of `genkey` invokes an initial part of the thirteen expected commands. -/
theorem genkey_invoked_take (env : Env) (name output expiration : String) :
    ∃ k, (genkey env name output expiration).invoked =
      (expectedCommands name output expiration).take k := by
  cases hcfg : env.ReadConfigBuild with
  | some err => exact ⟨0, by simp [genkey, hcfg]⟩
  | none =>
    cases hmk : env.MkdirAll output with
    | some err => exact ⟨0, by simp [genkey, hcfg, hmk]⟩
    | none =>
      rw [genkey_eq_runAll env name output expiration hcfg hmk]
      simpa using runAll_take env (expectedCommands name output expiration) []

theorem genkey_get (env : Env) (name output expiration : String) (i : Nat) (c : Cmd)
    (h : (genkey env name output expiration).invoked.get? i = some c) :
    (expectedCommands name output expiration).get? i = some c := by
  obtain ⟨k, hk⟩ := genkey_invoked_take env name output expiration
  rw [hk] at h
  simp only [List.get?_eq_getElem?, List.getElem?_take] at h ⊢
  split at h
  · exact h
  · exact absurd h (by simp)

theorem genkey_mem (env : Env) (name output expiration : String) (c : Cmd)
    (h : c ∈ (genkey env name output expiration).invoked) :
    c ∈ expectedCommands name output expiration := by
  obtain ⟨k, hk⟩ := genkey_invoked_take env name output expiration
  rw [hk] at h
  exact List.mem_of_mem_take h

theorem genkey_okEnv (name output expiration : String) :
    genkey okEnv name output expiration = ⟨expectedCommands name output expiration, none⟩ := by
  rw [genkey_eq_runAll okEnv name output expiration rfl rfl, runAll_ok]
  · simp
  · intro i c _
    rfl

/-! ## What the commands read and write -/

theorem Join_not_valueFlag (D e : String) (he : plainElem e.data) (hdot : '.' ∈ e.data) :
    Join D e ∉ valueFlags := by
  obtain ⟨base, hb⟩ := Join_plain D
  intro hmem
  have hall : ∀ f ∈ valueFlags, '.' ∉ f.data := by decide
  apply hall _ hmem
  rw [hb e he, String.data_append]
  exact List.mem_append_right _ hdot

theorem parse_req (subj key pem e : String) :
    parseArgs none (["req", "-nodes", "-x509", "-subj", subj, "-keyout", key, "-out", pem] ++
        (if e = "" then [] else ["-days", e])) =
      ([("-subj", subj), ("-keyout", key), ("-out", pem)] ++
        (if e = "" then [] else [("-days", e)]), ["req", "-nodes", "-x509"]) := by
  by_cases he : e = "" <;> simp [parseArgs, valueFlags, he]

theorem parse_x509 (pem der : String) :
    parseArgs none ["x509", "-outform", "DER", "-in", pem, "-out", der] =
      ([("-outform", "DER"), ("-in", pem), ("-out", der)], ["x509"]) := by
  simp [parseArgs, valueFlags]

theorem parse_sbsiglist (owner esl der : String) (h : der ∉ valueFlags) :
    parseArgs none ["--owner", owner, "--type", "x509", "--output", esl, der] =
      ([("--owner", owner), ("--type", "x509"), ("--output", esl)], [der]) := by
  have h1 : "--owner" ∈ valueFlags := by decide
  have h2 : "--type" ∈ valueFlags := by decide
  have h3 : "--output" ∈ valueFlags := by decide
  simp [parseArgs, h, h1, h2, h3]

theorem parse_sbvarsign (attr key cert auth role esl : String) (hr : role ∉ valueFlags)
    (h : esl ∉ valueFlags) :
    parseArgs none ["--attr", attr, "--key", key, "--cert", cert, "--output", auth, role, esl] =
      ([("--attr", attr), ("--key", key), ("--cert", cert), ("--output", auth)], [role, esl]) := by
  have h1 : "--attr" ∈ valueFlags := by decide
  have h2 : "--key" ∈ valueFlags := by decide
  have h3 : "--cert" ∈ valueFlags := by decide
  have h4 : "--output" ∈ valueFlags := by decide
  simp [parseArgs, h, hr, h1, h2, h3, h4]

theorem parse_genrsa (p : String) :
    parseArgs none ["genrsa", "-out", p, "2048"] = ([("-out", p)], ["genrsa", "2048"]) := by
  simp [parseArgs, valueFlags]

/-- The options and operands of the four commands of a role. -/
theorem parse_expectedRole (name output expiration owner role : String)
    (hr : role ∉ valueFlags) (hder : Join output (role ++ ".der") ∉ valueFlags)
    (hesl : Join output (role ++ ".esl") ∉ valueFlags) :
    (expectedRole name output expiration owner role).map (fun c => (c.name, parseArgs none c.args)) =
      [("openssl", [("-subj", "/CN=" ++ name ++ "/"), ("-keyout", Join output (role ++ ".key")),
            ("-out", Join output (role ++ ".pem"))] ++
            (if expiration = "" then [] else [("-days", expiration)]),
          ["req", "-nodes", "-x509"]),
        ("openssl", [("-outform", "DER"), ("-in", Join output (role ++ ".pem")),
            ("-out", Join output (role ++ ".der"))], ["x509"]),
        ("sbsiglist", [("--owner", owner), ("--type", "x509"),
            ("--output", Join output (role ++ ".esl"))], [Join output (role ++ ".der")]),
        ("sbvarsign", [("--attr",
              "NON_VOLATILE,RUNTIME_ACCESS,BOOTSERVICE_ACCESS,TIME_BASED_AUTHENTICATED_WRITE_ACCESS"),
            ("--key", Join output (signingParent role ++ ".key")),
            ("--cert", Join output (signingParent role ++ ".pem")),
            ("--output", Join output (role ++ ".auth"))],
          [role, Join output (role ++ ".esl")])] := by
  simp only [expectedRole, Command, List.map_cons, List.map_nil, parse_req, parse_x509,
    parse_sbsiglist _ _ _ hder, parse_sbvarsign _ _ _ _ _ _ hr hesl]

theorem writes_expectedRole (name output expiration owner role : String)
    (hr : role ∉ valueFlags) (hder : Join output (role ++ ".der") ∉ valueFlags)
    (hesl : Join output (role ++ ".esl") ∉ valueFlags) :
    (expectedRole name output expiration owner role).map writes =
      [[Join output (role ++ ".key"), Join output (role ++ ".pem")],
        [Join output (role ++ ".der")], [Join output (role ++ ".esl")],
        [Join output (role ++ ".auth")]] := by
  have h := parse_expectedRole name output expiration owner role hr hder hesl
  simp only [expectedRole, List.map_cons, List.map_nil, List.cons.injEq, Prod.mk.injEq,
    and_true] at h
  obtain ⟨⟨_, h1⟩, ⟨_, h2⟩, ⟨_, h3⟩, ⟨_, h4⟩⟩ := h
  simp only [expectedRole, List.map_cons, List.map_nil, writes, flagValues, h1, h2, h3, h4]
  by_cases he : expiration = "" <;> simp [he]

theorem reads_expectedRole (name output expiration owner role : String)
    (hr : role ∉ valueFlags) (hder : Join output (role ++ ".der") ∉ valueFlags)
    (hesl : Join output (role ++ ".esl") ∉ valueFlags) :
    (expectedRole name output expiration owner role).map reads =
      [[], [Join output (role ++ ".pem")], [Join output (role ++ ".der")],
        [Join output (signingParent role ++ ".key"), Join output (signingParent role ++ ".pem"),
          Join output (role ++ ".esl")]] := by
  have h := parse_expectedRole name output expiration owner role hr hder hesl
  simp only [expectedRole, List.map_cons, List.map_nil, List.cons.injEq, Prod.mk.injEq,
    and_true] at h
  obtain ⟨⟨_, h1⟩, ⟨_, h2⟩, ⟨_, h3⟩, ⟨_, h4⟩⟩ := h
  simp only [expectedRole, List.map_cons, List.map_nil, reads, flagValues, operands,
    h1, h2, h3, h4]
  by_cases he : expiration = "" <;> simp [he, Command]

theorem runAll_err_none (env : Env) (cs inv : List Cmd)
    (h : (runAll env cs inv).err = none) : (runAll env cs inv).invoked = inv ++ cs := by
  induction cs generalizing inv with
  | nil => simp [runAll]
  | cons c cs ih =>
    simp only [runAll] at h ⊢
    cases h0 : env.CombinedOutput inv.length c with
    | some err => simp [h0] at h
    | none =>
      simp only [h0] at h ⊢
      rw [ih (inv ++ [c]) h]
      simp

/-- A run that returns no error has invoked all thirteen commands. -/
theorem genkey_err_none (env : Env) (name output expiration : String)
    (h : (genkey env name output expiration).err = none) :
    (genkey env name output expiration).invoked = expectedCommands name output expiration := by
  cases hcfg : env.ReadConfigBuild with
  | some err => simp [genkey, hcfg] at h
  | none =>
    cases hmk : env.MkdirAll output with
    | some err => simp [genkey, hcfg, hmk] at h
    | none =>
      rw [genkey_eq_runAll env name output expiration hcfg hmk] at h ⊢
      simpa using runAll_err_none env _ [] h

theorem expectedCommands_length (name output expiration : String) :
    (expectedCommands name output expiration).length = 13 := by
  simp [expectedCommands, expectedRole]

theorem role_not_flag (D role : String) (h : role = "PK" ∨ role = "KEK" ∨ role = "DB") :
    role ∉ valueFlags ∧ Join D (role ++ ".der") ∉ valueFlags ∧
      Join D (role ++ ".esl") ∉ valueFlags := by
  rcases h with h | h | h <;> subst h <;>
  exact ⟨by decide,
    Join_not_valueFlag D _ (by simp [plainElem, IsPathSeparator, Separator]) (by decide),
    Join_not_valueFlag D _ (by simp [plainElem, IsPathSeparator, Separator]) (by decide)⟩

theorem writes_genrsa (p : String) :
    writes (Command "openssl" ["genrsa", "-out", p, "2048"]) = [p] := by
  simp [writes, flagValues, Command, parse_genrsa]

theorem reads_genrsa (p : String) :
    reads (Command "openssl" ["genrsa", "-out", p, "2048"]) = [] := by
  simp [reads, flagValues, Command, parse_genrsa]

theorem writes_expected (name output expiration : String) :
    (expectedCommands name output expiration).map writes =
      [[Join output "PK.key", Join output "PK.pem"], [Join output "PK.der"],
        [Join output "PK.esl"], [Join output "PK.auth"],
        [Join output "KEK.key", Join output "KEK.pem"], [Join output "KEK.der"],
        [Join output "KEK.esl"], [Join output "KEK.auth"],
        [Join output "DB.key", Join output "DB.pem"], [Join output "DB.der"],
        [Join output "DB.esl"], [Join output "DB.auth"],
        [Join output "tpm2-pcr-private.pem"]] := by
  obtain ⟨a1, a2, a3⟩ := role_not_flag output "PK" (by simp)
  obtain ⟨b1, b2, b3⟩ := role_not_flag output "KEK" (by simp)
  obtain ⟨c1, c2, c3⟩ := role_not_flag output "DB" (by simp)
  simp only [expectedCommands, List.map_append, List.map_cons, List.map_nil,
    writes_expectedRole _ _ _ _ _ a1 a2 a3, writes_expectedRole _ _ _ _ _ b1 b2 b3,
    writes_expectedRole _ _ _ _ _ c1 c2 c3, writes_genrsa]
  rfl

theorem reads_expected (name output expiration : String) :
    (expectedCommands name output expiration).map reads =
      [[], [Join output "PK.pem"], [Join output "PK.der"],
        [Join output "PK.key", Join output "PK.pem", Join output "PK.esl"],
        [], [Join output "KEK.pem"], [Join output "KEK.der"],
        [Join output "PK.key", Join output "PK.pem", Join output "KEK.esl"],
        [], [Join output "DB.pem"], [Join output "DB.der"],
        [Join output "KEK.key", Join output "KEK.pem", Join output "DB.esl"],
        []] := by
  obtain ⟨a1, a2, a3⟩ := role_not_flag output "PK" (by simp)
  obtain ⟨b1, b2, b3⟩ := role_not_flag output "KEK" (by simp)
  obtain ⟨c1, c2, c3⟩ := role_not_flag output "DB" (by simp)
  simp only [expectedCommands, List.map_append, List.map_cons, List.map_nil,
    reads_expectedRole _ _ _ _ _ a1 a2 a3, reads_expectedRole _ _ _ _ _ b1 b2 b3,
    reads_expectedRole _ _ _ _ _ c1 c2 c3, reads_genrsa]
  rfl

theorem expectedFiles_eq (D : String) :
    expectedFiles D =
      ["PK.key", "PK.pem", "PK.der", "PK.esl", "PK.auth",
        "KEK.key", "KEK.pem", "KEK.der", "KEK.esl", "KEK.auth",
        "DB.key", "DB.pem", "DB.der", "DB.esl", "DB.auth",
        "tpm2-pcr-private.pem"].map (Join D) := by
  rfl

theorem expectedFiles_nodup (D : String) : (expectedFiles D).Nodup := by
  obtain ⟨base, hb⟩ := Join_plain D
  rw [expectedFiles_eq]
  refine List.Nodup.map_on ?_ (by decide)
  intro x hx y hy hxy
  have hpx : plainElem x.data := by
    simp only [List.mem_cons, List.mem_singleton, List.not_mem_nil, or_false] at hx
    rcases hx with h | h | h | h | h | h | h | h | h | h | h | h | h | h | h | h <;>
      subst h <;> simp [plainElem, IsPathSeparator, Separator]
  have hpy : plainElem y.data := by
    simp only [List.mem_cons, List.mem_singleton, List.not_mem_nil, or_false] at hy
    rcases hy with h | h | h | h | h | h | h | h | h | h | h | h | h | h | h | h <;>
      subst h <;> simp [plainElem, IsPathSeparator, Separator]
  rw [hb x hpx, hb y hpy] at hxy
  have h2 : (base ++ x).data = (base ++ y).data := by rw [hxy]
  simp only [String.data_append] at h2
  exact String.ext (List.append_cancel_left h2)

theorem parse_expected (name output expiration : String) :
    (expectedCommands name output expiration).map (fun c => (c.name, parseArgs none c.args)) =
      (expectedRole name output expiration (ownerIdentifier name) "PK").map
          (fun c => (c.name, parseArgs none c.args)) ++
        (expectedRole name output expiration (ownerIdentifier name) "KEK").map
          (fun c => (c.name, parseArgs none c.args)) ++
        (expectedRole name output expiration (ownerIdentifier name) "DB").map
          (fun c => (c.name, parseArgs none c.args)) ++
        [("openssl", [("-out", Join output "tpm2-pcr-private.pem")], ["genrsa", "2048"])] := by
  simp only [expectedCommands, ownerIdentifier, List.map_append, List.map_cons, List.map_nil,
    Command, parse_genrsa]

/-- The name, options and operands of a command of a run are those of one of the
thirteen expected commands. -/
theorem parse_mem (name output expiration : String) (c : Cmd)
    (h : c ∈ expectedCommands name output expiration) :
    (∃ role, (role = "PK" ∨ role = "KEK" ∨ role = "DB") ∧
      (c.name, parseArgs none c.args) ∈
        [("openssl", [("-subj", "/CN=" ++ name ++ "/"), ("-keyout", Join output (role ++ ".key")),
            ("-out", Join output (role ++ ".pem"))] ++
            (if expiration = "" then [] else [("-days", expiration)]),
          ["req", "-nodes", "-x509"]),
        ("openssl", [("-outform", "DER"), ("-in", Join output (role ++ ".pem")),
            ("-out", Join output (role ++ ".der"))], ["x509"]),
        ("sbsiglist", [("--owner", ownerIdentifier name), ("--type", "x509"),
            ("--output", Join output (role ++ ".esl"))], [Join output (role ++ ".der")]),
        ("sbvarsign", [("--attr",
              "NON_VOLATILE,RUNTIME_ACCESS,BOOTSERVICE_ACCESS,TIME_BASED_AUTHENTICATED_WRITE_ACCESS"),
            ("--key", Join output (signingParent role ++ ".key")),
            ("--cert", Join output (signingParent role ++ ".pem")),
            ("--output", Join output (role ++ ".auth"))],
          [role, Join output (role ++ ".esl")])]) ∨
    (c.name, parseArgs none c.args) =
      ("openssl", [("-out", Join output "tpm2-pcr-private.pem")], ["genrsa", "2048"]) := by
  have hm := List.mem_map_of_mem (fun c => (c.name, parseArgs none c.args)) h
  rw [parse_expected] at hm
  simp only [List.mem_append, List.mem_singleton] at hm
  rcases hm with ((hm | hm) | hm) | hm
  · left
    obtain ⟨a1, a2, a3⟩ := role_not_flag output "PK" (by simp)
    rw [parse_expectedRole _ _ _ _ _ a1 a2 a3] at hm
    exact ⟨"PK", by simp, hm⟩
  · left
    obtain ⟨a1, a2, a3⟩ := role_not_flag output "KEK" (by simp)
    rw [parse_expectedRole _ _ _ _ _ a1 a2 a3] at hm
    exact ⟨"KEK", by simp, hm⟩
  · left
    obtain ⟨a1, a2, a3⟩ := role_not_flag output "DB" (by simp)
    rw [parse_expectedRole _ _ _ _ _ a1 a2 a3] at hm
    exact ⟨"DB", by simp, hm⟩
  · right
    exact hm

/-! ## Lemmas on identifiers -/

theorem hex_digit_inj : ∀ i < 16, ∀ j < 16,
    hextable.getD i '0' = hextable.getD j '0' → i = j := by
  decide

set_option maxRecDepth 100000 in
theorem byte_split : ∀ a < 256,
    a >>> 4 < 16 ∧ a &&& 0x0f < 16 ∧ a = (a >>> 4) * 16 + (a &&& 0x0f) := by
  decide

theorem hexEncode_byte_inj (a b : Fin 256)
    (h1 : hextable.getD (a.val >>> 4) '0' = hextable.getD (b.val >>> 4) '0')
    (h2 : hextable.getD (a.val &&& 0x0f) '0' = hextable.getD (b.val &&& 0x0f) '0') : a = b := by
  obtain ⟨a1, a2, a3⟩ := byte_split a.val a.isLt
  obtain ⟨b1, b2, b3⟩ := byte_split b.val b.isLt
  have e1 := hex_digit_inj _ a1 _ b1 h1
  have e2 := hex_digit_inj _ a2 _ b2 h2
  apply Fin.ext
  omega

/-- The canonical string form determines the sixteen bytes. -/
theorem uuidString_inj (u v : UUID) (h : uuidString u = uuidString v) : u = v := by
  have h := congrArg String.data h
  simp only [uuidString, hexEncode, List.flatMap_cons, List.flatMap_nil,
    List.cons_append, List.nil_append, List.append_nil, List.cons.injEq, true_and, and_true] at h
  obtain ⟨a0, b0, a1, b1, a2, b2, a3, b3, a4, b4, a5, b5, a6, b6, a7, b7, a8, b8, a9, b9,
    a10, b10, a11, b11, a12, b12, a13, b13, a14, b14, a15, b15⟩ := h
  funext i
  fin_cases i
  · exact hexEncode_byte_inj _ _ a0 b0
  · exact hexEncode_byte_inj _ _ a1 b1
  · exact hexEncode_byte_inj _ _ a2 b2
  · exact hexEncode_byte_inj _ _ a3 b3
  · exact hexEncode_byte_inj _ _ a4 b4
  · exact hexEncode_byte_inj _ _ a5 b5
  · exact hexEncode_byte_inj _ _ a6 b6
  · exact hexEncode_byte_inj _ _ a7 b7
  · exact hexEncode_byte_inj _ _ a8 b8
  · exact hexEncode_byte_inj _ _ a9 b9
  · exact hexEncode_byte_inj _ _ a10 b10
  · exact hexEncode_byte_inj _ _ a11 b11
  · exact hexEncode_byte_inj _ _ a12 b12
  · exact hexEncode_byte_inj _ _ a13 b13
  · exact hexEncode_byte_inj _ _ a14 b14
  · exact hexEncode_byte_inj _ _ a15 b15

set_option maxRecDepth 100000 in
theorem version_bits : ∀ a < 256,
    ((((a &&& 0x0f) ||| ((5 <<< 4) % 256)) % 256) &&& 0x0f) % 256 = (a &&& 0x0f) % 256 := by
  decide

set_option maxRecDepth 100000 in
theorem variant_bits : ∀ a < 256,
    ((((a &&& (0xff >>> 2)) ||| (0x02 <<< 6)) % 256) &&& 0x3f) % 256 = (a &&& 0x3f) % 256 := by
  decide

theorem keptBits_NewV5 (ns : UUID) (name : String) :
    keptBits (NewV5 ns name) = keptBits (newFromHash ns name) := by
  funext i
  have h68 : (6 : Fin 16) ≠ 8 := by decide
  by_cases h6 : i = 6
  · subst h6
    have := version_bits (newFromHash ns name 6).val (newFromHash ns name 6).isLt
    simp only [keptBits, NewV5, SetVariantRFC4122, SetVersion, if_true,
      Function.update_noteq h68, Function.update_same]
    apply Fin.ext
    simpa [Fin.ofNat] using this
  · by_cases h8 : i = 8
    · subst h8
      have := variant_bits (newFromHash ns name 8).val (newFromHash ns name 8).isLt
      simp only [keptBits, NewV5, SetVariantRFC4122, SetVersion, if_true, h6, if_false,
        Function.update_noteq (Ne.symm h68), Function.update_same]
      apply Fin.ext
      simpa [Fin.ofNat] using this
    · simp only [keptBits, NewV5, SetVariantRFC4122, SetVersion, h6, h8, if_false,
        Function.update_noteq h6, Function.update_noteq h8]

/-- A version-5 UUID is a function of the kept bits of the digest. -/
theorem NewV5_of_keptBits (ns : UUID) (n₁ n₂ : String)
    (h : keptBits (newFromHash ns n₁) = keptBits (newFromHash ns n₂)) :
    NewV5 ns n₁ = NewV5 ns n₂ := by
  funext i
  have h68 : (6 : Fin 16) ≠ 8 := by decide
  have hi := congrFun h i
  by_cases h6 : i = 6
  · subst h6
    simp only [keptBits, if_true] at hi
    simp only [NewV5, SetVariantRFC4122, SetVersion, Function.update_noteq h68,
      Function.update_same]
    have hv := congrArg Fin.val hi
    simp only [Fin.ofNat, Nat.reducePow] at hv ⊢
    apply Fin.ext
    simp only []
    have a1 := (byte_split _ (newFromHash ns n₁ 6).isLt).2.1
    have a2 := (byte_split _ (newFromHash ns n₂ 6).isLt).2.1
    rw [Nat.mod_eq_of_lt (by omega), Nat.mod_eq_of_lt (by omega)] at hv
    rw [hv]
  · by_cases h8 : i = 8
    · subst h8
      simp only [keptBits, h6, if_false, if_true] at hi
      simp only [NewV5, SetVariantRFC4122, SetVersion, Function.update_same,
        Function.update_noteq h6]
      have hv := congrArg Fin.val hi
      simp only [Fin.ofNat] at hv ⊢
      apply Fin.ext
      simp only []
      have l1 : ∀ a : Nat, a &&& 0x3f < 256 := fun a =>
        Nat.lt_of_le_of_lt Nat.and_le_right (by decide)
      rw [Nat.mod_eq_of_lt (l1 _), Nat.mod_eq_of_lt (l1 _)] at hv
      have e : ∀ a : Nat, a &&& (0xff >>> 2) = a &&& 0x3f := fun a => rfl
      simp only [e, hv]
    · simp only [keptBits, h6, h8, if_false] at hi
      simp only [NewV5, SetVariantRFC4122, SetVersion, Function.update_noteq h6,
        Function.update_noteq h8]
      exact hi

theorem ownerIdentifier_eq_iff (n₁ n₂ : String) :
    ownerIdentifier n₁ = ownerIdentifier n₂ ↔
      keptBits (newFromHash NamespaceDNS n₁) = keptBits (newFromHash NamespaceDNS n₂) := by
  constructor
  · intro h
    have := uuidString_inj _ _ h
    rw [← keptBits_NewV5, ← keptBits_NewV5, this]
  · intro h
    unfold ownerIdentifier
    rw [NewV5_of_keptBits NamespaceDNS n₁ n₂ h]

theorem nameOfBits_inj (v w : Fin 129 → Bool) (h : nameOfBits v = nameOfBits w) : v = w := by
  have hd := congrArg String.data h
  simp only [nameOfBits] at hd
  have hf := List.ofFn_injective hd
  funext i
  have hi : (if v i = true then 'a' else 'b') = (if w i = true then 'a' else 'b') :=
    congrFun hf i
  clear hf hd h
  revert hi
  cases v i <;> cases w i <;> decide

/-- Two distinct names of 129 letters have the same version-5 UUID: there are more such
names than UUIDs. -/
theorem NewV5_collision :
    ∃ n₁ n₂ : String, n₁ ≠ n₂ ∧ n₁.length = 129 ∧ n₂.length = 129 ∧
      NewV5 NamespaceDNS n₁ = NewV5 NamespaceDNS n₂ := by
  have hcard : Fintype.card UUID < Fintype.card (Fin 129 → Bool) := by
    simp only [UUID, Fintype.card_fun, Fintype.card_fin, Fintype.card_bool]
    norm_num
  obtain ⟨v, w, hne, heq⟩ :=
    Fintype.exists_ne_map_eq_of_card_lt (fun v => NewV5 NamespaceDNS (nameOfBits v)) hcard
  refine ⟨nameOfBits v, nameOfBits w, fun h => hne (nameOfBits_inj v w h), ?_, ?_, heq⟩
  · exact List.length_ofFn _
  · exact List.length_ofFn _


/-! ## The claims -/

/-- C1: in every run, the `sbvarsign` command issued for the variable PK and the one
issued for KEK are given `--key <output>/PK.key` and `--cert <output>/PK.pem`, and the one
issued for DB is given `--key <output>/KEK.key` and `--cert <output>/KEK.pem`, where
`<output>/f` is the path `filepath.Join(output, f)`. -/
theorem sbvarsign_signing_parent (env : Env) (name output expiration : String) (c : Cmd)
    (hc : c ∈ (genkey env name output expiration).invoked) (hn : c.name = "sbvarsign") :
    (((operands c.args).head? = some "PK" ∨ (operands c.args).head? = some "KEK") →
        flagValue "--key" c.args = some (Join output "PK.key") ∧
        flagValue "--cert" c.args = some (Join output "PK.pem")) ∧
      ((operands c.args).head? = some "DB" →
        flagValue "--key" c.args = some (Join output "KEK.key") ∧
        flagValue "--cert" c.args = some (Join output "KEK.pem")) := by
  have hp := parse_mem name output expiration c (genkey_mem env name output expiration c hc)
  rw [hn] at hp
  rcases hp with ⟨role, hr, hp⟩ | hp
  · simp only [List.mem_cons, Prod.mk.injEq, List.mem_singleton, List.not_mem_nil, or_false,
      String.reduceEq, false_and, false_or, true_and] at hp
    simp only [operands, flagValue, hp]
    rcases hr with h | h | h <;> subst h <;> simp [signingParent, List.lookup]
  · simp at hp

/-- Witness of C1: in the default run for the name `acme-corp` the signing command of KEK
is among the invoked commands and is given the key and certificate of PK. -/
theorem sbvarsign_signing_parent_witness :
    Command "sbvarsign" ["--attr",
        "NON_VOLATILE,RUNTIME_ACCESS,BOOTSERVICE_ACCESS,TIME_BASED_AUTHENTICATED_WRITE_ACCESS",
        "--key", "keys/PK.key", "--cert", "keys/PK.pem", "--output", "keys/KEK.auth", "KEK",
        "keys/KEK.esl"] ∈ (genkey okEnv "acme-corp" "keys/" "365").invoked ∧
      flagValue "--key" ["--attr",
        "NON_VOLATILE,RUNTIME_ACCESS,BOOTSERVICE_ACCESS,TIME_BASED_AUTHENTICATED_WRITE_ACCESS",
        "--key", "keys/PK.key", "--cert", "keys/PK.pem", "--output", "keys/KEK.auth", "KEK",
        "keys/KEK.esl"] = some (Join "keys/" "PK.key") ∧
      flagValue "--cert" ["--attr",
        "NON_VOLATILE,RUNTIME_ACCESS,BOOTSERVICE_ACCESS,TIME_BASED_AUTHENTICATED_WRITE_ACCESS",
        "--key", "keys/PK.key", "--cert", "keys/PK.pem", "--output", "keys/KEK.auth", "KEK",
        "keys/KEK.esl"] = some (Join "keys/" "PK.pem") :=
  ⟨by decide,
    (sbvarsign_signing_parent okEnv "acme-corp" "keys/" "365"
      (Command "sbvarsign" ["--attr",
        "NON_VOLATILE,RUNTIME_ACCESS,BOOTSERVICE_ACCESS,TIME_BASED_AUTHENTICATED_WRITE_ACCESS",
        "--key", "keys/PK.key", "--cert", "keys/PK.pem", "--output", "keys/KEK.auth", "KEK",
        "keys/KEK.esl"]) (by decide) rfl).1
      (Or.inr (by decide))⟩

/-- C2 (fail-fast): if the configuration is read and the output directory created, the
first `k-1` commands of the sequence of a fully successful run succeed and the `k`-th
fails with `err` (for `1 ≤ k ≤ 13`), then `genkey` returns `err` and has invoked exactly
the first `k` commands of that sequence: no later step, no later role, no retry.  For
`k = 1` (the certificate of PK fails) the only command invoked is the certificate generation
of PK: no command for KEK or DB. -/
theorem genkey_fail_fast (env : Env) (name output expiration : String) (k : Nat)
    (err : GoError) (hk1 : 1 ≤ k) (hk13 : k ≤ 13)
    (hcfg : env.ReadConfigBuild = none) (hmk : env.MkdirAll output = none)
    (hok : ∀ i c, i < k - 1 →
      (genkey okEnv name output expiration).invoked.get? i = some c →
        env.CombinedOutput i c = none)
    (hfail : ∀ c, (genkey okEnv name output expiration).invoked.get? (k - 1) = some c →
      env.CombinedOutput (k - 1) c = some err) :
    genkey env name output expiration =
        ⟨(genkey okEnv name output expiration).invoked.take k, some err⟩ ∧
      (genkey env name output expiration).invoked.length = k ∧
      (k = 1 → (genkey env name output expiration).invoked =
        [Command "openssl"
          (["req", "-nodes", "-x509", "-subj", "/CN=" ++ name ++ "/",
            "-keyout", Join output "PK.key", "-out", Join output "PK.pem"] ++
            (if expiration = "" then [] else ["-days", expiration]))]) := by
  rw [genkey_okEnv] at hok hfail ⊢
  have hlen := expectedCommands_length name output expiration
  have hrun := runAll_fail env (expectedCommands name output expiration) [] (k - 1) err
    (by omega) (by simpa using hok) (by simpa using hfail)
  rw [genkey_eq_runAll env name output expiration hcfg hmk, hrun]
  have hk : k - 1 + 1 = k := by omega
  rw [List.nil_append, hk]
  refine ⟨rfl, ?_, ?_⟩
  · simp only [List.length_take, hlen]
    omega
  · intro h1
    subst h1
    simp only [expectedCommands, expectedRole, List.cons_append, List.take_succ_cons,
      List.take_zero]
    rfl

/-- Witness of C2: the sixth command (DER conversion for KEK) fails. -/
theorem genkey_fail_fast_witness :
    genkey ⟨none, fun _ => none, fun i _ => if i = 5 then some "exit status 1" else none⟩
        "acme-corp" "keys/" "365" =
        ⟨(genkey okEnv "acme-corp" "keys/" "365").invoked.take 6, some "exit status 1"⟩ ∧
      (genkey ⟨none, fun _ => none, fun i _ => if i = 5 then some "exit status 1" else none⟩
        "acme-corp" "keys/" "365").invoked.length = 6 :=
  ⟨(genkey_fail_fast
      ⟨none, fun _ => none, fun i _ => if i = 5 then some "exit status 1" else none⟩
      "acme-corp" "keys/" "365" 6 "exit status 1" (by decide) (by decide) rfl rfl
      (fun i c hi _ => by
        have h5 : i ≠ 5 := by omega
        simp [h5])
      (fun c _ => by simp)).1,
    (genkey_fail_fast
      ⟨none, fun _ => none, fun i _ => if i = 5 then some "exit status 1" else none⟩
      "acme-corp" "keys/" "365" 6 "exit status 1" (by decide) (by decide) rfl rfl
      (fun i c hi _ => by
        have h5 : i ≠ 5 := by omega
        simp [h5])
      (fun c _ => by simp)).2.1⟩

/-- C3: if the output directory cannot be created, `genkey` returns the error of
`os.MkdirAll` and has invoked no external tool. -/
theorem genkey_mkdir_failure (env : Env) (name output expiration : String) (err : GoError)
    (hcfg : env.ReadConfigBuild = none) (hmk : env.MkdirAll output = some err) :
    genkey env name output expiration = ⟨[], some err⟩ ∧
      (genkey env name output expiration).invoked = [] := by
  rw [genkey_no_dir env name output expiration err hcfg hmk]
  exact ⟨rfl, rfl⟩

/-- Witness of C3: the output path is an existing regular file. -/
theorem genkey_mkdir_failure_witness :
    genkey ⟨none, fun _ => some "mkdir keys/: not a directory", fun _ _ => none⟩
        "acme-corp" "keys/" "365" = ⟨[], some "mkdir keys/: not a directory"⟩ ∧
      (genkey ⟨none, fun _ => some "mkdir keys/: not a directory", fun _ _ => none⟩
        "acme-corp" "keys/" "365").invoked = [] :=
  genkey_mkdir_failure ⟨none, fun _ => some "mkdir keys/: not a directory", fun _ _ => none⟩
    "acme-corp" "keys/" "365" "mkdir keys/: not a directory" rfl rfl

/-- C4: when the configuration is read, the output directory is created and every
invoked tool succeeds, `genkey` returns no error and invokes exactly the thirteen expected
commands in order: for PK, then KEK, then DB the four steps `openssl req`,
`openssl x509 -outform DER`, `sbsiglist`, `sbvarsign`, and last
`openssl genrsa -out <output>/tpm2-pcr-private.pem 2048`. -/
theorem genkey_success (env : Env) (name output expiration : String)
    (hcfg : env.ReadConfigBuild = none) (hmk : env.MkdirAll output = none)
    (hok : ∀ i c, (expectedCommands name output expiration).get? i = some c →
      env.CombinedOutput i c = none) :
    genkey env name output expiration = ⟨expectedCommands name output expiration, none⟩ ∧
      (genkey env name output expiration).invoked.length = 13 ∧
      (genkey env name output expiration).invoked.map (fun c => (c.name, c.args.take 1)) =
        [("openssl", ["req"]), ("openssl", ["x509"]), ("sbsiglist", ["--owner"]),
          ("sbvarsign", ["--attr"]),
          ("openssl", ["req"]), ("openssl", ["x509"]), ("sbsiglist", ["--owner"]),
          ("sbvarsign", ["--attr"]),
          ("openssl", ["req"]), ("openssl", ["x509"]), ("sbsiglist", ["--owner"]),
          ("sbvarsign", ["--attr"]),
          ("openssl", ["genrsa"])] ∧
      (genkey env name output expiration).invoked.getLast? =
        some (Command "openssl" ["genrsa", "-out", Join output "tpm2-pcr-private.pem", "2048"]) := by
  have h : genkey env name output expiration = ⟨expectedCommands name output expiration, none⟩ := by
    rw [genkey_eq_runAll env name output expiration hcfg hmk, runAll_ok]
    · simp
    · intro i c hc
      simpa using hok i c hc
  rw [h]
  refine ⟨rfl, expectedCommands_length name output expiration, ?_, ?_⟩
  · simp [expectedCommands, expectedRole, Command]
  · simp [expectedCommands]

/-- Witness of C4: the default run for the name `acme-corp` in an environment where
nothing fails. -/
theorem genkey_success_witness :
    (genkey okEnv "acme-corp" "keys/" "365").err = none ∧
      (genkey okEnv "acme-corp" "keys/" "365").invoked.length = 13 :=
  ⟨congrArg Run.err (genkey_success okEnv "acme-corp" "keys/" "365" rfl rfl
      (fun _ _ _ => rfl)).1,
    (genkey_success okEnv "acme-corp" "keys/" "365" rfl rfl (fun _ _ _ => rfl)).2.1⟩

/-- C5: in a run that returns no error, the file paths the commands are told to write
are, in order, the sixteen expected files of the output directory `D` (`D` joined with
`<ROLE>.key`, `.pem`, `.der`, `.esl`, `.auth` for PK, KEK, DB and with
`tpm2-pcr-private.pem`); these sixteen paths are pairwise distinct, and no command writes
to any other path. -/
theorem genkey_output_files (env : Env) (name D expiration : String)
    (h : (genkey env name D expiration).err = none) :
    (genkey env name D expiration).invoked.flatMap writes = expectedFiles D ∧
      (expectedFiles D).Nodup ∧ (expectedFiles D).length = 16 ∧
      ∀ c ∈ (genkey env name D expiration).invoked, ∀ p ∈ writes c, p ∈ expectedFiles D := by
  have hw : (genkey env name D expiration).invoked.flatMap writes = expectedFiles D := by
    rw [genkey_err_none env name D expiration h, List.flatMap_def, writes_expected]
    rfl
  refine ⟨hw, expectedFiles_nodup D, rfl, fun c hc p hp => ?_⟩
  rw [← hw]
  exact List.mem_flatMap.mpr ⟨c, hc, hp⟩

/-- Witness of C5: the default run for the name `acme-corp`. -/
theorem genkey_output_files_witness :
    (genkey okEnv "acme-corp" "keys/" "365").err = none ∧
      (genkey okEnv "acme-corp" "keys/" "365").invoked.flatMap writes = expectedFiles "keys/" ∧
      (expectedFiles "keys/").Nodup :=
  ⟨by decide,
    (genkey_output_files okEnv "acme-corp" "keys/" "365" (by decide)).1,
    (genkey_output_files okEnv "acme-corp" "keys/" "365" (by decide)).2.1⟩

/-- C8: for every name, output directory `D`, expiration `e` and role (the `i`-th of PK,
KEK, DB), the certificate-generation command, invoked as command `4 * i` of a run, is
`openssl` with the arguments `req -nodes -x509 -subj /CN=<name>/ -keyout D/<ROLE>.key
-out D/<ROLE>.pem`, followed by `-days e` exactly when `e` is not empty; with the default
expiration the list ends with `-days 365`, with an empty one no `-days` is passed. -/
theorem certificate_command (env : Env) (name D e : String) (i : Nat) (role : String)
    (c : Cmd) (hr : ["PK", "KEK", "DB"].get? i = some role)
    (hc : (genkey env name D e).invoked.get? (4 * i) = some c) :
    c = Command "openssl"
        (["req", "-nodes", "-x509", "-subj", "/CN=" ++ name ++ "/",
          "-keyout", Join D (role ++ ".key"), "-out", Join D (role ++ ".pem")] ++
          (if e = "" then [] else ["-days", e])) ∧
      (e ≠ "" ↔ c.args.drop 9 = ["-days", e]) ∧
      (e = defaultExpiration → c.args.drop 9 = ["-days", "365"]) ∧
      (e = "" → c.args.length = 9 ∧ flagValue "-days" c.args = none) := by
  have hx := genkey_get env name D e (4 * i) c hc
  have hi : i = 0 ∨ i = 1 ∨ i = 2 := by
    rcases i with _ | _ | _ | i
    · simp
    · simp
    · simp
    · simp at hr
  have hc' : c = Command "openssl"
        (["req", "-nodes", "-x509", "-subj", "/CN=" ++ name ++ "/",
          "-keyout", Join D (role ++ ".key"), "-out", Join D (role ++ ".pem")] ++
          (if e = "" then [] else ["-days", e])) := by
    rcases hi with h | h | h <;> subst h <;>
      simp [expectedCommands, expectedRole] at hx hr <;> subst hr <;> exact hx.symm
  refine ⟨hc', ?_, ?_, ?_⟩
  · rw [hc']
    by_cases he : e = "" <;> simp [Command, he]
  · intro he
    rw [hc', he]
    simp [Command, defaultExpiration]
  · intro he
    rw [hc', he]
    simp only [Command, if_true, List.append_nil, flagValue]
    have hp := parse_req ("/CN=" ++ name ++ "/") (Join D (role ++ ".key"))
      (Join D (role ++ ".pem")) ""
    simp only [if_true, List.append_nil] at hp
    rw [hp]
    simp [List.lookup]

/-- Witness of C8: the certificate of KEK in the default run for the name `acme-corp`. -/
theorem certificate_command_witness :
    (genkey okEnv "acme-corp" "keys/" "365").invoked.get? 4 =
        some (Command "openssl" ["req", "-nodes", "-x509", "-subj", "/CN=acme-corp/",
          "-keyout", "keys/KEK.key", "-out", "keys/KEK.pem", "-days", "365"]) ∧
      (Command "openssl" ["req", "-nodes", "-x509", "-subj", "/CN=acme-corp/",
          "-keyout", "keys/KEK.key", "-out", "keys/KEK.pem", "-days", "365"]).args.drop 9 =
        ["-days", "365"] :=
  ⟨by decide,
    (certificate_command okEnv "acme-corp" "keys/" "365" 1 "KEK"
      (Command "openssl" ["req", "-nodes", "-x509", "-subj", "/CN=acme-corp/",
          "-keyout", "keys/KEK.key", "-out", "keys/KEK.pem", "-days", "365"])
      (by decide) (by decide)).2.2.1 rfl⟩

theorem get_take_of_get {α : Type} (l : List α) (k i : Nat) (a : α)
    (h : (l.take k).get? i = some a) : i < k ∧ l.get? i = some a := by
  simp only [List.get?_eq_getElem?, List.getElem?_take] at h ⊢
  split at h
  · exact ⟨by assumption, h⟩
  · exact absurd h (by simp)

theorem get_take_of_lt {α : Type} (l : List α) (k i : Nat) (hi : i < k) :
    (l.take k).get? i = l.get? i := by
  simp [List.getElem?_take, hi]

/-- C9: for every role (the `i`-th of PK, KEK, DB), the signing command, invoked as
command `4 * i + 3` of a run, is `sbvarsign` with `--attr` exactly
`NON_VOLATILE,RUNTIME_ACCESS,BOOTSERVICE_ACCESS,TIME_BASED_AUTHENTICATED_WRITE_ACCESS`,
`--output <output>/<ROLE>.auth`, the role as variable name and `<output>/<ROLE>.esl` as
input, which is the file that the `sbsiglist` command of the same role (command
`4 * i + 2`) was told to write. -/
theorem sbvarsign_command (env : Env) (name output expiration : String) (i : Nat)
    (role : String) (c : Cmd) (hr : ["PK", "KEK", "DB"].get? i = some role)
    (hc : (genkey env name output expiration).invoked.get? (4 * i + 3) = some c) :
    c.name = "sbvarsign" ∧
      flagValue "--attr" c.args =
        some "NON_VOLATILE,RUNTIME_ACCESS,BOOTSERVICE_ACCESS,TIME_BASED_AUTHENTICATED_WRITE_ACCESS" ∧
      flagValue "--output" c.args = some (Join output (role ++ ".auth")) ∧
      operands c.args = [role, Join output (role ++ ".esl")] ∧
      ∃ l, (genkey env name output expiration).invoked.get? (4 * i + 2) = some l ∧
        l.name = "sbsiglist" ∧ writes l = [Join output (role ++ ".esl")] := by
  obtain ⟨k, hk⟩ := genkey_invoked_take env name output expiration
  rw [hk] at hc ⊢
  obtain ⟨hlt, hx⟩ := get_take_of_get _ _ _ _ hc
  rw [get_take_of_lt _ _ _ (by omega)]
  have hi : i = 0 ∨ i = 1 ∨ i = 2 := by
    rcases i with _ | _ | _ | i
    · simp
    · simp
    · simp
    · simp at hr
  have hrole : role = "PK" ∨ role = "KEK" ∨ role = "DB" := by
    rcases hi with h | h | h <;> subst h <;> simp at hr <;> simp [hr]
  obtain ⟨a1, a2, a3⟩ := role_not_flag output role hrole
  have hcx : c = Command "sbvarsign"
      ["--attr", "NON_VOLATILE,RUNTIME_ACCESS,BOOTSERVICE_ACCESS,TIME_BASED_AUTHENTICATED_WRITE_ACCESS",
        "--key", Join output (signingParent role ++ ".key"),
        "--cert", Join output (signingParent role ++ ".pem"),
        "--output", Join output (role ++ ".auth"), role, Join output (role ++ ".esl")] := by
    rcases hi with h | h | h <;> subst h <;>
      simp [expectedCommands, expectedRole] at hx hr <;> subst hr <;> exact hx.symm
  have hl : (expectedCommands name output expiration).get? (4 * i + 2) =
      some (Command "sbsiglist"
        ["--owner", ownerIdentifier name, "--type", "x509", "--output",
          Join output (role ++ ".esl"), Join output (role ++ ".der")]) := by
    rcases hi with h | h | h <;> subst h <;>
      simp [expectedCommands, expectedRole, ownerIdentifier] at hr ⊢ <;> subst hr <;> rfl
  refine ⟨by rw [hcx]; rfl, ?_, ?_, ?_, _, hl, rfl, ?_⟩
  · rw [hcx]
    simp only [flagValue, Command, parse_sbvarsign _ _ _ _ _ _ a1 a3]
    simp [List.lookup]
  · rw [hcx]
    simp only [flagValue, Command, parse_sbvarsign _ _ _ _ _ _ a1 a3]
    simp [List.lookup]
  · rw [hcx]
    simp only [operands, Command, parse_sbvarsign _ _ _ _ _ _ a1 a3]
  · simp only [writes, flagValues, Command, parse_sbsiglist _ _ _ a2]
    simp

/-- Witness of C9: the signing command of DB in the default run for the name
`acme-corp`. -/
theorem sbvarsign_command_witness :
    (genkey okEnv "acme-corp" "keys/" "365").invoked.get? 11 =
        some (Command "sbvarsign" ["--attr",
          "NON_VOLATILE,RUNTIME_ACCESS,BOOTSERVICE_ACCESS,TIME_BASED_AUTHENTICATED_WRITE_ACCESS",
          "--key", "keys/KEK.key", "--cert", "keys/KEK.pem", "--output", "keys/DB.auth", "DB",
          "keys/DB.esl"]) ∧
      operands ["--attr",
          "NON_VOLATILE,RUNTIME_ACCESS,BOOTSERVICE_ACCESS,TIME_BASED_AUTHENTICATED_WRITE_ACCESS",
          "--key", "keys/KEK.key", "--cert", "keys/KEK.pem", "--output", "keys/DB.auth", "DB",
          "keys/DB.esl"] = ["DB", Join "keys/" "DB.esl"] :=
  ⟨by decide,
    (sbvarsign_command okEnv "acme-corp" "keys/" "365" 2 "DB"
      (Command "sbvarsign" ["--attr",
          "NON_VOLATILE,RUNTIME_ACCESS,BOOTSERVICE_ACCESS,TIME_BASED_AUTHENTICATED_WRITE_ACCESS",
          "--key", "keys/KEK.key", "--cert", "keys/KEK.pem", "--output", "keys/DB.auth", "DB",
          "keys/DB.esl"]) (by decide) (by decide)).2.2.2.1⟩

theorem deps_expected (name output expiration : String) (i : Nat) (rs : List String)
    (h : ((expectedCommands name output expiration).map reads).get? i = some rs) :
    ∀ p ∈ rs, ∃ j ws, j < i ∧
      ((expectedCommands name output expiration).map writes).get? j = some ws ∧ p ∈ ws := by
  rw [reads_expected] at h
  rw [writes_expected]
  intro p hp
  rcases i with _ | _ | _ | _ | _ | _ | _ | _ | _ | _ | _ | _ | _ | i
  · simp at h; subst h; simp at hp
  · simp at h; subst h; simp at hp; subst hp
    exact ⟨0, _, by omega, rfl, by simp⟩
  · simp at h; subst h; simp at hp; subst hp
    exact ⟨1, _, by omega, rfl, by simp⟩
  · simp at h; subst h; simp at hp
    rcases hp with hp | hp | hp <;> subst hp
    · exact ⟨0, _, by omega, rfl, by simp⟩
    · exact ⟨0, _, by omega, rfl, by simp⟩
    · exact ⟨2, _, by omega, rfl, by simp⟩
  · simp at h; subst h; simp at hp
  · simp at h; subst h; simp at hp; subst hp
    exact ⟨4, _, by omega, rfl, by simp⟩
  · simp at h; subst h; simp at hp; subst hp
    exact ⟨5, _, by omega, rfl, by simp⟩
  · simp at h; subst h; simp at hp
    rcases hp with hp | hp | hp <;> subst hp
    · exact ⟨0, _, by omega, rfl, by simp⟩
    · exact ⟨0, _, by omega, rfl, by simp⟩
    · exact ⟨6, _, by omega, rfl, by simp⟩
  · simp at h; subst h; simp at hp
  · simp at h; subst h; simp at hp; subst hp
    exact ⟨8, _, by omega, rfl, by simp⟩
  · simp at h; subst h; simp at hp; subst hp
    exact ⟨9, _, by omega, rfl, by simp⟩
  · simp at h; subst h; simp at hp
    rcases hp with hp | hp | hp <;> subst hp
    · exact ⟨4, _, by omega, rfl, by simp⟩
    · exact ⟨4, _, by omega, rfl, by simp⟩
    · exact ⟨10, _, by omega, rfl, by simp⟩
  · simp at h; subst h; simp at hp
  · simp at h

/-- C10: `genkey` reads no pre-existing key material.  In every run, for every output
directory, every file path a command is told to read (the `.pem` of DER conversion, the
`.der` of `sbsiglist`, the `.esl`, `--key` and `--cert` of `sbvarsign`) is a path that a
strictly earlier command of the same run was told to write; in particular the signing
paths `Join(output, "PK") + ".key"`, `+ ".pem"` and `Join(output, "KEK") + ".key"`,
`+ ".pem"` are the paths `Join(output, "PK.key")` etc. of certificate generation. -/
theorem genkey_reads_own_files (env : Env) (name output expiration : String) :
    (∀ i c p, (genkey env name output expiration).invoked.get? i = some c → p ∈ reads c →
      ∃ j w, j < i ∧ (genkey env name output expiration).invoked.get? j = some w ∧
        p ∈ writes w) ∧
      Join output "PK" ++ ".key" = Join output "PK.key" ∧
      Join output "PK" ++ ".pem" = Join output "PK.pem" ∧
      Join output "KEK" ++ ".key" = Join output "KEK.key" ∧
      Join output "KEK" ++ ".pem" = Join output "KEK.pem" := by
  refine ⟨?_, (signKey_PK output).1, (signKey_PK output).2, (signKey_KEK output).1,
    (signKey_KEK output).2⟩
  obtain ⟨k, hk⟩ := genkey_invoked_take env name output expiration
  rw [hk]
  intro i c p hc hp
  obtain ⟨hlt, hx⟩ := get_take_of_get _ _ _ _ hc
  have hrs : ((expectedCommands name output expiration).map reads).get? i = some (reads c) := by
    simp only [List.get?_eq_getElem?] at hx ⊢
    simp [hx]
  obtain ⟨j, ws, hj, hws, hpw⟩ := deps_expected name output expiration i (reads c) hrs p hp
  simp only [List.get?_eq_getElem?, List.getElem?_map, Option.map_eq_some'] at hws
  obtain ⟨w, hw, rfl⟩ := hws
  refine ⟨j, w, hj, ?_, hpw⟩
  rw [get_take_of_lt _ _ _ (by omega)]
  simpa using hw

theorem owner_of_sbsiglist (env : Env) (name output expiration : String) (c : Cmd)
    (hc : c ∈ (genkey env name output expiration).invoked) (hn : c.name = "sbsiglist") :
    flagValue "--owner" c.args = some (ownerIdentifier name) := by
  have hp := parse_mem name output expiration c (genkey_mem env name output expiration c hc)
  rw [hn] at hp
  rcases hp with ⟨role, _, hp⟩ | hp
  · simp only [List.mem_cons, Prod.mk.injEq, List.mem_singleton, List.not_mem_nil, or_false,
      String.reduceEq, false_and, false_or, true_and, or_false] at hp
    simp [flagValue, hp, List.lookup]
  · simp at hp

theorem sbsiglist_at (env : Env) (name output expiration : String) (i : Nat) (c : Cmd)
    (hi : i < 3) (hc : (genkey env name output expiration).invoked.get? (4 * i + 2) = some c) :
    c.name = "sbsiglist" := by
  have hx := genkey_get env name output expiration (4 * i + 2) c hc
  have h3 : i = 0 ∨ i = 1 ∨ i = 2 := by omega
  rcases h3 with h | h | h <;> subst h <;>
    simp [expectedCommands, expectedRole] at hx <;> rw [← hx] <;> rfl

/-- C6: the owner identifier is a function of the name alone.  In any two runs for the
same name, whatever the environments, output directories and expiration values, every
`sbsiglist` command carries as `--owner` the string form of the version-5 UUID of the
name under the DNS namespace; and in a run the signature-list commands of PK, KEK and DB
(commands 2, 6 and 10) are `sbsiglist` commands with this owner. -/
theorem owner_function_of_name (env₁ env₂ : Env) (name out₁ out₂ e₁ e₂ : String)
    (c₁ c₂ : Cmd) (h₁ : c₁ ∈ (genkey env₁ name out₁ e₁).invoked)
    (h₂ : c₂ ∈ (genkey env₂ name out₂ e₂).invoked)
    (n₁ : c₁.name = "sbsiglist") (n₂ : c₂.name = "sbsiglist") :
    flagValue "--owner" c₁.args = some (uuidString (NewV5 NamespaceDNS name)) ∧
      flagValue "--owner" c₂.args = flagValue "--owner" c₁.args ∧
      ∀ i c, i < 3 → (genkey env₁ name out₁ e₁).invoked.get? (4 * i + 2) = some c →
        c.name = "sbsiglist" ∧
          flagValue "--owner" c.args = some (uuidString (NewV5 NamespaceDNS name)) := by
  have a := owner_of_sbsiglist env₁ name out₁ e₁ c₁ h₁ n₁
  have b := owner_of_sbsiglist env₂ name out₂ e₂ c₂ h₂ n₂
  refine ⟨a, by rw [a, b], fun i c hi hc => ?_⟩
  have hn := sbsiglist_at env₁ name out₁ e₁ i c hi hc
  exact ⟨hn, owner_of_sbsiglist env₁ name out₁ e₁ c (List.get?_mem hc) hn⟩

set_option maxRecDepth 100000 in
/-- Witness of C6: the signature list of PK in the default run for `acme-corp` and the one
of DB in a run for the same name with another directory, another expiration and a failing
last command carry the same owner. -/
theorem owner_function_of_name_witness :
    Command "sbsiglist" ["--owner", "a6500631-1930-5afa-9d38-24de9bedcb37", "--type", "x509",
        "--output", "keys/PK.esl", "keys/PK.der"] ∈
        (genkey okEnv "acme-corp" "keys/" "365").invoked ∧
      Command "sbsiglist" ["--owner", "a6500631-1930-5afa-9d38-24de9bedcb37", "--type", "x509",
        "--output", "/tmp/keys/DB.esl", "/tmp/keys/DB.der"] ∈
        (genkey ⟨none, fun _ => none, fun i _ => if i = 12 then some "exit status 1" else none⟩
          "acme-corp" "/tmp/keys" "30").invoked ∧
      flagValue "--owner" ["--owner", "a6500631-1930-5afa-9d38-24de9bedcb37", "--type", "x509",
        "--output", "/tmp/keys/DB.esl", "/tmp/keys/DB.der"] =
      flagValue "--owner" ["--owner", "a6500631-1930-5afa-9d38-24de9bedcb37", "--type", "x509",
        "--output", "keys/PK.esl", "keys/PK.der"] :=
  ⟨by decide, by decide,
    (owner_function_of_name okEnv
      ⟨none, fun _ => none, fun i _ => if i = 12 then some "exit status 1" else none⟩
      "acme-corp" "keys/" "/tmp/keys" "365" "30"
      (Command "sbsiglist" ["--owner", "a6500631-1930-5afa-9d38-24de9bedcb37", "--type", "x509",
        "--output", "keys/PK.esl", "keys/PK.der"])
      (Command "sbsiglist" ["--owner", "a6500631-1930-5afa-9d38-24de9bedcb37", "--type", "x509",
        "--output", "/tmp/keys/DB.esl", "/tmp/keys/DB.der"])
      (by decide) (by decide) rfl rfl).2.1⟩

/-- C7 as stated fails: two distinct names of 129 letters have the same owner identifier,
so the map from the name to the owner identifier of `genkey` is not injective. -/
theorem ownerIdentifier_not_injective :
    (∃ n₁ n₂ : String, n₁ ≠ n₂ ∧ n₁.length = 129 ∧ n₂.length = 129 ∧
      ownerIdentifier n₁ = ownerIdentifier n₂) ∧
      ¬ Function.Injective ownerIdentifier := by
  obtain ⟨n₁, n₂, hne, l₁, l₂, h⟩ := NewV5_collision
  have ho : ownerIdentifier n₁ = ownerIdentifier n₂ := congrArg uuidString h
  exact ⟨⟨n₁, n₂, hne, l₁, l₂, ho⟩, fun hinj => hne (hinj ho)⟩

/-- C7, amended: the `sbsiglist` commands of a run for the name `n₁` and of a run for the
name `n₂` carry the same `--owner` exactly when the SHA-1 digests of the DNS namespace
followed by the name agree on the bits a version-5 UUID keeps; names whose digests differ
there get different owner identifiers. -/
theorem owner_eq_iff_keptBits (env₁ env₂ : Env) (n₁ n₂ out₁ out₂ e₁ e₂ : String)
    (c₁ c₂ : Cmd) (h₁ : c₁ ∈ (genkey env₁ n₁ out₁ e₁).invoked)
    (h₂ : c₂ ∈ (genkey env₂ n₂ out₂ e₂).invoked)
    (s₁ : c₁.name = "sbsiglist") (s₂ : c₂.name = "sbsiglist") :
    flagValue "--owner" c₁.args = flagValue "--owner" c₂.args ↔
      keptBits (newFromHash NamespaceDNS n₁) = keptBits (newFromHash NamespaceDNS n₂) := by
  rw [owner_of_sbsiglist env₁ n₁ out₁ e₁ c₁ h₁ s₁, owner_of_sbsiglist env₂ n₂ out₂ e₂ c₂ h₂ s₂,
    Option.some.injEq]
  exact ownerIdentifier_eq_iff n₁ n₂

set_option maxRecDepth 100000 in
/-- Witness of C7, amended: the names `acme-corp` and `python.org` get different owner
identifiers, and their digests differ on the kept bits. -/
theorem owner_eq_iff_keptBits_witness :
    Command "sbsiglist" ["--owner", "a6500631-1930-5afa-9d38-24de9bedcb37", "--type", "x509",
        "--output", "keys/PK.esl", "keys/PK.der"] ∈
        (genkey okEnv "acme-corp" "keys/" "365").invoked ∧
      Command "sbsiglist" ["--owner", "886313e1-3b8a-5372-9b90-0c9aee199e5d", "--type", "x509",
        "--output", "keys/PK.esl", "keys/PK.der"] ∈
        (genkey okEnv "python.org" "keys/" "365").invoked ∧
      keptBits (newFromHash NamespaceDNS "acme-corp") ≠
        keptBits (newFromHash NamespaceDNS "python.org") :=
  ⟨by decide, by decide, fun h =>
    absurd ((owner_eq_iff_keptBits okEnv okEnv "acme-corp" "python.org" "keys/" "keys/"
      "365" "365"
      (Command "sbsiglist" ["--owner", "a6500631-1930-5afa-9d38-24de9bedcb37", "--type", "x509",
        "--output", "keys/PK.esl", "keys/PK.der"])
      (Command "sbsiglist" ["--owner", "886313e1-3b8a-5372-9b90-0c9aee199e5d", "--type", "x509",
        "--output", "keys/PK.esl", "keys/PK.der"])
      (by decide) (by decide) rfl rfl).2 h) (by decide)⟩

/-- Witness of C10: in the default run for `acme-corp` the key `keys/PK.key` that the
signing command of KEK (command 7) reads was written by an earlier command. -/
theorem genkey_reads_own_files_witness :
    "keys/PK.key" ∈ reads (Command "sbvarsign" ["--attr",
        "NON_VOLATILE,RUNTIME_ACCESS,BOOTSERVICE_ACCESS,TIME_BASED_AUTHENTICATED_WRITE_ACCESS",
        "--key", "keys/PK.key", "--cert", "keys/PK.pem", "--output", "keys/KEK.auth", "KEK",
        "keys/KEK.esl"]) ∧
      ∃ j w, j < 7 ∧ (genkey okEnv "acme-corp" "keys/" "365").invoked.get? j = some w ∧
        "keys/PK.key" ∈ writes w :=
  ⟨by decide,
    (genkey_reads_own_files okEnv "acme-corp" "keys/" "365").1 7
      (Command "sbvarsign" ["--attr",
        "NON_VOLATILE,RUNTIME_ACCESS,BOOTSERVICE_ACCESS,TIME_BASED_AUTHENTICATED_WRITE_ACCESS",
        "--key", "keys/PK.key", "--cert", "keys/PK.pem", "--output", "keys/KEK.auth", "KEK",
        "keys/KEK.esl"]) "keys/PK.key" (by decide) (by decide)⟩

end Enki
